import Mathlib

/-!
Verification development for the card-game core: the Layout/Action state
machine (`app/models.py`, `app/actions.py`), the solved-layout constructor and
scrambler (`app/generator.py`), and the rating/difficulty engine
(`app/elo.py`).

Modelling conventions used throughout:
* Python card-code strings `f"{rank}{suit}"` are modelled by `Card` values
  (rank plus suit); the encoding is injective, so equality/multiset statements
  about codes and about cards coincide.
* Python's `random.Random` is modelled by `Rng`: an arbitrary stream of
  naturals together with a cursor.  `randrange n` consumes one stream value and
  reduces it mod `n` (so it always returns an in-range value, like Python);
  `shuffle` is CPython's Fisher-Yates loop over that primitive, `choice l`
  is `l[randrange(len l)]`.
* Python raising `IndexError`/`ValueError` on malformed shapes is modelled by
  returning the input unchanged in the Layout operators; every theorem about
  them carries the well-formedness hypotheses under which Python does not
  raise.  In the constructor, raised `RuntimeError`s are modelled by
  `Except.error` with the source's message.
* Python float arithmetic is idealised as exact rational arithmetic; the
  transcendental `**` operator of `elo.py` is passed in as an explicit
  function parameter `pow`, so every statement quantifies over it.
-/

namespace CardGame

/-- The four suits; `models.py` uses the strings S, H, D, C. -/
inductive Suit
  | S
  | H
  | D
  | C
deriving DecidableEq, Repr, Inhabited

/-- Key used when Python compares suit strings: ASCII order is C < D < H < S. -/
def Suit.strOrd : Suit → Nat
  | .C => 0
  | .D => 1
  | .H => 2
  | .S => 3

/-- `Card` from `models.py`: rank 2..14 plus suit. -/
structure Card where
  rank : Nat
  suit : Suit
deriving DecidableEq, Repr, Inhabited

/-- Sort key for Python's `key=lambda c: (c.rank, c.suit)`: lexicographic on
(rank, suit-string); `strOrd < 4` makes this encoding faithful. -/
def cardKey (c : Card) : Nat :=
  c.rank * 4 + c.suit.strOrd

/-- `SUITS` list from `models.py`, in source order. -/
def SUITS : List Suit := [.S, .H, .D, .C]

/-- `RANKS = list(range(2, 15))`. -/
def RANKS : List Nat := List.range' 2 13

/-- `standard_deck()`: `[Card(r, s) for s in SUITS for r in RANKS]`. -/
def standard_deck : List Card :=
  SUITS.flatMap fun s => RANKS.map fun r => { rank := r, suit := s }

/-- Stable insertion step used by `sortCards` below. -/
def insertLe (le : Card → Card → Bool) (c : Card) : List Card → List Card
  | [] => [c]
  | x :: xs => if le c x then c :: x :: xs else x :: insertLe le c xs

/-- Stable sort modelling Python's `sorted` (all keys that occur in this
development are distinct, so any correct sort yields Python's result). -/
def sortCards (le : Card → Card → Bool) (l : List Card) : List Card :=
  l.foldr (insertLe le) []

/-- `card_sort_desc` from `models.py`: sorted by (rank, suit), descending. -/
def card_sort_desc (cards : List Card) : List Card :=
  sortCards (fun a b => cardKey b ≤ cardKey a) cards

/-- `Layout` from `models.py`.  Cells hold cards (card-code strings in the
source); reserves are the `[top, bottom]` pairs, kept as 2-element lists. -/
structure Layout where
  rows : List (List Card)
  row_reserves : List (List Card)
  col_reserves : List (List Card)
  opponent_row_index : Nat
deriving DecidableEq, Repr, Inhabited

/-- `num_rows` property. -/
def Layout.num_rows (L : Layout) : Nat := L.rows.length

/-- `num_cols` property: the source hardcodes 5. -/
def Layout.num_cols (_L : Layout) : Nat := 5

/-- `clone()`: a deep copy, which for immutable values is the identity. -/
def Layout.clone (L : Layout) : Layout := L

/-- Placeholder card used only as a `getD` default on shape-violation paths
(where Python would raise); theorems always exclude those paths. -/
def dummyCard : Card := { rank := 0, suit := .S }

/-- Python's simultaneous `l[i], l[j] = l[j], l[i]`; out-of-range indices
(an `IndexError` in Python) leave the list unchanged. -/
def swapNth (l : List α) (i j : Nat) : List α :=
  match l.get? i, l.get? j with
  | some a, some b => (l.set i b).set j a
  | _, _ => l

/-- In-place update `rows[r] = f rows[r]`; out of range leaves `rows` as is. -/
def setRowG (rows : List α) (r : Nat) (f : α → α) : List α :=
  match rows.get? r with
  | some row => rows.set r (f row)
  | none => rows

/-- Writes `vals` down column `c`: `rows[r][c] = vals[r]` for every row. -/
def setColumn (rows : List (List Card)) (c : Nat) (vals : List Card) :
    List (List Card) :=
  (rows.zip vals).map fun p => p.1.set c p.2

/-- Reads column `c`: `[row[c] for row in rows]`. -/
def getColumn (rows : List (List Card)) (c : Nat) : List Card :=
  rows.map fun row => row.getD c dummyCard

/-- `Layout.swap_with_opponent`: swap cells `i`, `j` in row `row_index`, then
swap the same cells in the opponent row (reading the already-updated state,
exactly like the two sequential Python statements). -/
def Layout.swap_with_opponent (L : Layout) (row_index i j : Nat) : Layout :=
  let rows1 := setRowG L.rows row_index (fun row => swapNth row i j)
  let rows2 := setRowG rows1 L.opponent_row_index (fun row => swapNth row i j)
  { L with rows := rows2 }

/-- `Layout.shift_row_right`.  The source's loop over the five cells (with
`num_cols = 5`) turns `[a0,a1,a2,a3,a4]` with reserve `[top, bottom]` into
`[top,a0,a1,a2,a3]` with reserve `[bottom, a4]`; rows or reserves of any other
shape make Python raise, modelled as the identity. -/
def Layout.shift_row_right (L : Layout) (row_index : Nat) : Layout :=
  match L.rows.get? row_index, L.row_reserves.get? row_index with
  | some [a0, a1, a2, a3, a4], some [top, bottom] =>
      { L with
        rows := L.rows.set row_index [top, a0, a1, a2, a3],
        row_reserves := L.row_reserves.set row_index [bottom, a4] }
  | _, _ => L

/-- `Layout.shift_row_left`: `[a0,a1,a2,a3,a4]` with reserve `[top, bottom]`
becomes `[a1,a2,a3,a4,bottom]` with reserve `[a0, top]`. -/
def Layout.shift_row_left (L : Layout) (row_index : Nat) : Layout :=
  match L.rows.get? row_index, L.row_reserves.get? row_index with
  | some [a0, a1, a2, a3, a4], some [top, bottom] =>
      { L with
        rows := L.rows.set row_index [a1, a2, a3, a4, bottom],
        row_reserves := L.row_reserves.set row_index [a0, top] }
  | _, _ => L

/-- `Layout.shift_col_down`: the column becomes `top :: column.dropLast`, the
reserve `[bottom, bottommost]`, mirroring the source's downward copy loop. -/
def Layout.shift_col_down (L : Layout) (col_index : Nat) : Layout :=
  match L.col_reserves.get? col_index, L.rows.getLast? with
  | some [top, bottom], some lastRow =>
      let bottommost := lastRow.getD col_index dummyCard
      let col := getColumn L.rows col_index
      { L with
        rows := setColumn L.rows col_index (top :: col.dropLast),
        col_reserves := L.col_reserves.set col_index [bottom, bottommost] }
  | _, _ => L

/-- `Layout.shift_col_up`: the column becomes `column.tail ++ [bottom]`, the
reserve `[topmost, top]`. -/
def Layout.shift_col_up (L : Layout) (col_index : Nat) : Layout :=
  match L.col_reserves.get? col_index, L.rows.head? with
  | some [top, bottom], some firstRow =>
      let topmost := firstRow.getD col_index dummyCard
      let col := getColumn L.rows col_index
      { L with
        rows := setColumn L.rows col_index (col.tail ++ [bottom]),
        col_reserves := L.col_reserves.set col_index [topmost, top] }
  | _, _ => L

/-- Well-formed Layout shapes: the shapes `models.py` relies on (every grid
row has the 5 hardcoded columns, one `[top, bottom]` reserve pair per row and
per column).  Layouts built by the constructor satisfy this. -/
def Layout.wf (L : Layout) : Prop :=
  L.rows ≠ [] ∧
  (∀ row ∈ L.rows, row.length = 5) ∧
  L.row_reserves.length = L.rows.length ∧
  (∀ p ∈ L.row_reserves, p.length = 2) ∧
  L.col_reserves.length = 5 ∧
  (∀ p ∈ L.col_reserves, p.length = 2)

instance (L : Layout) : Decidable L.wf := by
  unfold Layout.wf
  infer_instance

/-- `Action` from `actions.py`: a tagged value with integer parameters. -/
inductive Action
  | swap (row_index i j : Nat)
  | row_right (row_index : Nat)
  | row_left (row_index : Nat)
  | col_down (col_index : Nat)
  | col_up (col_index : Nat)
deriving DecidableEq, Repr, Inhabited

/-- `inverse_action` from `actions.py`. -/
def inverse_action : Action → Action
  | .row_right r => .row_left r
  | .row_left r => .row_right r
  | .col_down c => .col_up c
  | .col_up c => .col_down c
  | .swap r i j => .swap r i j

/-- `apply_action` from `generator.py`. -/
def apply_action (layout : Layout) (action : Action) : Layout :=
  match action with
  | .swap r i j => layout.swap_with_opponent r i j
  | .row_right r => layout.shift_row_right r
  | .row_left r => layout.shift_row_left r
  | .col_down c => layout.shift_col_down c
  | .col_up c => layout.shift_col_up c

/-- Index validity of an action against a Layout's shape: the preconditions
under which the Python operators do not raise. -/
def validAction (L : Layout) : Action → Bool
  | .swap r i j => r < L.rows.length && i < 5 && j < 5
  | .row_right r => r < L.rows.length
  | .row_left r => r < L.rows.length
  | .col_down c => c < 5
  | .col_up c => c < 5

/-- Model of `random.Random`: an arbitrary deterministic stream of naturals
with a read cursor.  Every primitive the source calls consumes stream values
in call order, so a fixed stream reproduces a fixed run. -/
structure Rng where
  stream : Nat → Nat
  pos : Nat

/-- `rng.randrange(n)`: one stream value, reduced mod `n` so the result is in
`[0, n)` whenever `n > 0` (Python raises on `n = 0`; never called so here). -/
def Rng.randrange (rng : Rng) (n : Nat) : Nat × Rng :=
  (rng.stream rng.pos % n, { rng with pos := rng.pos + 1 })

/-- `rng.choice(seq)`: `seq[randrange(len(seq))]`. -/
def Rng.choice [Inhabited α] (rng : Rng) (l : List α) : α × Rng :=
  let (i, rng1) := rng.randrange l.length
  (l.getD i default, rng1)

/-- CPython Fisher-Yates: for `i` from `len-1` down to 1, draw
`j = randrange(i+1)` and swap positions `i` and `j`. -/
def shuffleGo (l : List α) (rng : Rng) : Nat → List α × Rng
  | 0 => (l, rng)
  | Nat.succ i =>
      let (j, rng1) := rng.randrange (i + 2)
      shuffleGo (swapNth l (i + 1) j) rng1 i

/-- `rng.shuffle(x)` (returning the shuffled list instead of mutating). -/
def Rng.shuffle (rng : Rng) (l : List α) : List α × Rng :=
  shuffleGo l rng (l.length - 1)

/-- `draw_deck` from `generator.py`. -/
def draw_deck (rng : Rng) : List Card × Rng :=
  rng.shuffle standard_deck

/-- `required_reserve_count` from `generator.py`. -/
def required_reserve_count (num_rows : Nat) (num_cols : Nat) : Nat :=
  num_rows * 2 + num_cols * 2

/-- `pick_opponent_row_from_grid`: the 5 lowest cards by (rank, suit). -/
def pick_opponent_row_from_grid (grid_cards : List Card) : List Card :=
  (sortCards (fun a b => cardKey a ≤ cardKey b) grid_cards).take 5

/-- `fifth_vs_sixth_highest_ok` from `generator.py`. -/
def fifth_vs_sixth_highest_ok (cards : List Card) : Bool :=
  let desc := card_sort_desc cards
  if desc.length < 6 then false
  else decide ((desc.getD 4 dummyCard).rank ≠ (desc.getD 5 dummyCard).rank)

/-- Keys of a Python dict built by repeated `setdefault`, i.e. the distinct
elements of `l` in order of first occurrence. -/
def orderedKeys (l : List Suit) : List Suit :=
  l.foldl (fun acc s => if s ∈ acc then acc else acc ++ [s]) []

/-- `find_suit_row` from `generator.py`. -/
def find_suit_row (opponent_row : List Card) (remaining_grid : List Card)
    (rng : Rng) : (Option Suit × List Card) × Rng :=
  let suits_in_opp := orderedKeys (opponent_row.map (·.suit))
  if suits_in_opp.length = 1 then ((none, opponent_row), rng)
  else
    let keys := orderedKeys (remaining_grid.map (·.suit))
    let candidates := keys.filter fun s =>
      5 ≤ (remaining_grid.filter fun c => c.suit == s).length
    if candidates.isEmpty then ((none, []), rng)
    else
      let (suit, rng1) := rng.choice candidates
      let chosen := remaining_grid.filter fun c => c.suit == suit
      let (chosen1, rng2) := rng1.shuffle chosen
      ((some suit, chosen1.take 5), rng2)

/-- `max(c.rank for c in cards)` over ℤ (all ranks are ≥ 2, and the source
only calls this on the non-empty opponent row, so the 0 base is inert). -/
def maxRankZ (cards : List Card) : ℤ :=
  cards.foldl (fun m c => max m (c.rank : ℤ)) 0

/-- The row-by-row walk of `find_column_sequence`: each `(r, target)` pair
takes the first card of the designated source pool with the target rank,
removing it from that pool (the opponent row is read without removal). -/
def fcsGo (opp_idx : Nat) (suite_row_index : Option Nat)
    (opponent_row : List Card) :
    List (Nat × ℤ) → List Card → List Card → List Card → Option (List Card)
  | [], _, _, sequence => some sequence
  | (r, target) :: rest, pool_remaining, pool_suit, sequence =>
      if suite_row_index = some r then
        match pool_suit.filter (fun c => (c.rank : ℤ) == target) with
        | [] => none
        | chosen :: _ =>
            fcsGo opp_idx suite_row_index opponent_row rest
              pool_remaining (pool_suit.erase chosen) (sequence ++ [chosen])
      else if r = opp_idx ∧ target ∈ opponent_row.map (fun c => (c.rank : ℤ)) then
        match opponent_row.filter (fun c => (c.rank : ℤ) == target) with
        | [] => none
        | chosen :: _ =>
            fcsGo opp_idx suite_row_index opponent_row rest
              pool_remaining pool_suit (sequence ++ [chosen])
      else
        match pool_remaining.filter (fun c => (c.rank : ℤ) == target) with
        | [] => none
        | chosen :: _ =>
            fcsGo opp_idx suite_row_index opponent_row rest
              (pool_remaining.erase chosen) pool_suit (sequence ++ [chosen])

/-- `find_column_sequence` from `generator.py`.  Ranks are ℤ because
`start_rank` can go below zero before the `[2, 14]` range check. -/
def find_column_sequence (num_rows : Nat) (opponent_row_index : Nat)
    (suite_row_index : Option Nat)
    (opponent_row suit_row_cards remaining : List Card) : Option (List Card) :=
  let base_rank := maxRankZ opponent_row
  let start_rank := base_rank - (opponent_row_index : ℤ)
  let needed := (List.range num_rows).map fun r => start_rank + (r : ℤ)
  if needed.foldl min start_rank < 2 ∨ 14 < needed.foldl max start_rank then none
  else
    fcsGo opponent_row_index suite_row_index opponent_row
      ((List.range num_rows).zip needed) remaining suit_row_cards []

/-- Python `set(a) == set(b)` for card lists. -/
def pySetEq (a b : List Card) : Bool :=
  a.all (fun c => b.contains c) && b.all (fun c => a.contains c)

/-- The `for s_idx in candidate_indices` search of `build_solved_layout`:
first candidate index whose column sequence exists, with that sequence. -/
def try_candidates (num_rows opponent_row_index : Nat)
    (opponent_row suit_row_cards remaining : List Card) :
    List Nat → Option (List Card × Nat)
  | [] => none
  | s_idx :: rest =>
      match find_column_sequence num_rows opponent_row_index (some s_idx)
          opponent_row suit_row_cards remaining with
      | some sequence => some (sequence, s_idx)
      | none =>
          try_candidates num_rows opponent_row_index
            opponent_row suit_row_cards remaining rest

/-- Writes the chosen column sequence down column `c` of the optional grid. -/
def place_column (rows : List (List (Option Card))) (c : Nat)
    (sequence : List Card) : List (List (Option Card)) :=
  (rows.zip sequence).map fun p => p.1.set c (some p.2)

/-- Python `list.pop()`:  removes and returns the last element. -/
def pyPop (l : List Card) : Option (Card × List Card) :=
  match l.getLast? with
  | none => none
  | some c => some (c, l.dropLast)

/-- Cards already present in a row under construction (`if code` filter). -/
def presentCards (row : List (Option Card)) : List Card :=
  row.filterMap id

/-- `[i for i in range(num_cols) if rows[r][i] == ""]`. -/
def emptyIndices (num_cols : Nat) (row : List (Option Card)) : List Nat :=
  (List.range num_cols).filter fun i => row.getD i (some dummyCard) == none

/-- `for c_obj, idx in zip(cards, empties): row[idx] = c_obj`. -/
def fill_at (row : List (Option Card)) (pairs : List (Card × Nat)) :
    List (Option Card) :=
  pairs.foldl (fun row p => row.set p.2 (some p.1)) row

/-- The `rows[r][c_idx] = remaining_pool.pop()` loop restricted to one row;
`none` models the `IndexError` of popping an empty pool. -/
def fill_row_cells : List (Option Card) → List Card →
    Option (List Card × List Card)
  | [], pool => some ([], pool)
  | some c :: rest, pool =>
      match fill_row_cells rest pool with
      | none => none
      | some (row, p) => some (c :: row, p)
  | none :: rest, pool =>
      match pyPop pool with
      | none => none
      | some (c, pool1) =>
          match fill_row_cells rest pool1 with
          | none => none
          | some (row, p) => some (c :: row, p)

/-- The full `for r: for c_idx: ...pop()` fill of the remaining grid cells. -/
def fill_rows : List (List (Option Card)) → List Card →
    Option (List (List Card) × List Card)
  | [], pool => some ([], pool)
  | row :: rest, pool =>
      match fill_row_cells row pool with
      | none => none
      | some (row1, pool1) =>
          match fill_rows rest pool1 with
          | none => none
          | some (rows1, pool2) => some (row1 :: rows1, pool2)

/-- The reserve-assignment loops: `count` times, pop a top then a bottom
card from the end of the pool, forming `[top, bottom]` pairs in order. -/
def assign_pairs : Nat → List Card → Option (List (List Card) × List Card)
  | 0, pool => some ([], pool)
  | Nat.succ k, pool =>
      match pyPop pool with
      | none => none
      | some (a, pool1) =>
          match pyPop pool1 with
          | none => none
          | some (b, pool2) =>
              match assign_pairs k pool2 with
              | none => none
              | some (pairs, pool3) => some ([a, b] :: pairs, pool3)

/-- The renumbering of `build_solved_layout` (lines 195-200): visit rows in
`new_order = [opp] + [i for i in range(num_rows) if i != opp]`. -/
def reorder_rows (num_rows opp : Nat) (l : List α) (d : α) : List α :=
  let new_order := opp :: ((List.range num_rows).filter fun i => i != opp)
  new_order.map fun old => l.getD old d

/-- `old_to_new.get(s, s)` where `old_to_new` inverts `new_order`. -/
def remap_index (num_rows opp s : Nat) : Nat :=
  let new_order := opp :: ((List.range num_rows).filter fun i => i != opp)
  match new_order.findIdx? (fun x => x == s) with
  | some n => n
  | none => s

/-- `BuildMeta`: the metadata dict returned beside the layout. -/
structure BuildMeta where
  opponent_row_index : Nat
  suite_row_index : Nat
  column_index : Nat
deriving DecidableEq, Repr, Inhabited

/-- Lines 195-212 of `generator.py`: renumber rows and row reserves so the
opponent row is first, remap the suite row index, and assemble the Layout
(whose `opponent_row_index` is set to 0) plus metadata. -/
def finish_attempt (rows row_reserves col_reserves : List (List Card))
    (opponent_row_index chosen_suit_row_index col_index num_rows : Nat) :
    Layout × BuildMeta :=
  let rows1 := reorder_rows num_rows opponent_row_index rows []
  let row_reserves1 := reorder_rows num_rows opponent_row_index row_reserves []
  let suit1 := remap_index num_rows opponent_row_index chosen_suit_row_index
  ({ rows := rows1, row_reserves := row_reserves1,
     col_reserves := col_reserves, opponent_row_index := 0 },
   { opponent_row_index := 0, suite_row_index := suit1,
     column_index := col_index })

/-- Lines 171-193 of `generator.py`, shared by both paths out of the
suit-row fill: place the remaining grid cards (shuffled, popped from the end)
into the empty cells, then deal the shuffled reserve pool two cards per row
and two per column, and finish the attempt. -/
def build_attempt_tail (players : Nat) (rng5 : Rng)
    (reserve_pool remaining_grid : List Card)
    (rows3 : List (List (Option Card)))
    (opponent_row_index chosen_suit_row_index col_index : Nat) :
    Except String (Option (Layout × BuildMeta)) × Rng :=
  let num_rows := players + 1
  let num_cols := 5
  let used_codes := rows3.flatMap presentCards
  let remaining_pool := remaining_grid.filter fun c => ¬ used_codes.contains c
  let (remaining_pool1, rng6) := rng5.shuffle remaining_pool
  match fill_rows rows3 remaining_pool1 with
  | none => (.error "pop from empty list", rng6)
  | some (filled_rows, _) =>
      let (pool, rng7) := rng6.shuffle reserve_pool
      let need := required_reserve_count num_rows num_cols
      if pool.length < need then (.ok none, rng7)
      else
        match assign_pairs num_rows pool with
        | none => (.error "pop from empty list", rng7)
        | some (row_reserves, pool2) =>
            match assign_pairs num_cols pool2 with
            | none => (.error "pop from empty list", rng7)
            | some (col_reserves, _) =>
                (.ok (some (finish_attempt filled_rows row_reserves col_reserves
                  opponent_row_index chosen_suit_row_index col_index num_rows)),
                 rng7)

/-- Lines 144-178 of `generator.py`, from the column-sequence search result
onwards: lay the chosen column into a fresh grid, fill the opponent and suit
rows, and hand over to `build_attempt_tail`. -/
def build_attempt_mid (players : Nat) (rng4 : Rng)
    (reserve_pool remaining_grid opp_row_cards suit_row_cards : List Card)
    (opponent_row_index : Nat) (chosen : Option (List Card × Nat)) :
    Except String (Option (Layout × BuildMeta)) × Rng :=
  let num_rows := players + 1
  let num_cols := 5
  match chosen with
  | none => (.ok none, rng4)
  | some (chosen_seq, chosen_suit_row_index) =>
      let rows0 : List (List (Option Card)) :=
        List.replicate num_rows (List.replicate num_cols none)
      let (col_index, rng5) := rng4.randrange num_cols
      let rows1 := place_column rows0 col_index chosen_seq
      let opp_row_now := rows1.getD opponent_row_index []
      let already_in_opp := presentCards opp_row_now
      let remaining_opp :=
        opp_row_cards.filter fun c => ¬ already_in_opp.contains c
      let empties_opp := emptyIndices num_cols opp_row_now
      if empties_opp.length < remaining_opp.length then (.ok none, rng5)
      else
        let rows2 := setRowG rows1 opponent_row_index
          (fun row => fill_at row (remaining_opp.zip empties_opp))
        if chosen_suit_row_index ≠ opponent_row_index ∧ suit_row_cards ≠ [] then
          let suit_row_now := rows2.getD chosen_suit_row_index []
          let already_in_suit := presentCards suit_row_now
          let remaining_suit :=
            suit_row_cards.filter fun c => ¬ already_in_suit.contains c
          let empties_suit := emptyIndices num_cols suit_row_now
          if empties_suit.length < remaining_suit.length then (.ok none, rng5)
          else
            let rows3 := setRowG rows2 chosen_suit_row_index
              (fun row => fill_at row (remaining_suit.zip empties_suit))
            build_attempt_tail players rng5 reserve_pool remaining_grid rows3
              opponent_row_index chosen_suit_row_index col_index
        else
          build_attempt_tail players rng5 reserve_pool remaining_grid rows2
            opponent_row_index chosen_suit_row_index col_index

/-- One iteration of the `for _ in range(max_attempts)` loop of
`build_solved_layout`.  `.error` models a raised `RuntimeError`/`IndexError`
(aborting construction), `.ok none` a `continue` (failed attempt), and
`.ok (some _)` the `return`. -/
def build_attempt (players : Nat) (rng0 : Rng) :
    Except String (Option (Layout × BuildMeta)) × Rng :=
  let num_rows := players + 1
  let num_cols := 5
  let (deck, rng1) := draw_deck rng0
  let grid_count := num_rows * num_cols
  let reserve_need := required_reserve_count num_rows num_cols
  if grid_count + reserve_need > deck.length then
    (.error "Not enough cards to build layout", rng1)
  else
    let grid_cards := deck.take grid_count
    let reserve_pool := deck.drop grid_count
    if ¬ fifth_vs_sixth_highest_ok grid_cards then (.ok none, rng1)
    else
      let opp_row_cards := pick_opponent_row_from_grid grid_cards
      let remaining_grid := grid_cards.filter fun c => ¬ opp_row_cards.contains c
      let ((suit, suit_row_cards), rng2) :=
        find_suit_row opp_row_cards remaining_grid rng1
      let (opponent_row_index, rng3) := rng2.randrange num_rows
      let (candidate_indices, rng4) :=
        if suit = none ∧ pySetEq suit_row_cards opp_row_cards then
          ([opponent_row_index], rng3)
        else rng3.shuffle (List.range num_rows)
      build_attempt_mid players rng4 reserve_pool remaining_grid opp_row_cards
        suit_row_cards opponent_row_index
        (try_candidates num_rows opponent_row_index opp_row_cards
          suit_row_cards
          (remaining_grid.filter fun c => ¬ suit_row_cards.contains c)
          candidate_indices)

/-- Dispatch on one attempt result: a raised error propagates, a `return`
returns, a failed attempt falls through to the rest of the loop. -/
def build_loop_step (next : Rng → Except String (Layout × BuildMeta)) :
    Except String (Option (Layout × BuildMeta)) × Rng →
      Except String (Layout × BuildMeta)
  | (.error e, _) => .error e
  | (.ok (some res), _) => .ok res
  | (.ok none, rng1) => next rng1

/-- The retry loop of `build_solved_layout`: run attempts until one returns,
propagate raised errors, and report the distinct budget-exhausted error after
`max_attempts` failed attempts. -/
def build_loop (players : Nat) : Nat → Rng → Except String (Layout × BuildMeta)
  | 0, _ => .error "Failed to build solved layout within attempts"
  | Nat.succ n, rng =>
      build_loop_step (build_loop players n) (build_attempt players rng)

/-- `build_solved_layout` from `generator.py` (`max_attempts` defaults to
2000 at call sites). -/
def build_solved_layout (players : Nat) (rng : Rng) (max_attempts : Nat) :
    Except String (Layout × BuildMeta) :=
  build_loop players max_attempts rng

/-- The row loop of `random_legal_action`: every non-opponent row contributes
`row_right`, `row_left`, and - when the two drawn columns differ - one
`swap`; the two `randrange` draws happen only for non-opponent rows. -/
def row_choices (layout : Layout) :
    List Nat → List Action → Rng → List Action × Rng
  | [], choices, rng => (choices, rng)
  | r :: rest, choices, rng =>
      if r = layout.opponent_row_index then row_choices layout rest choices rng
      else
        let choices1 := choices ++ [Action.row_right r, Action.row_left r]
        let (i, rng1) := rng.randrange layout.num_cols
        let (j, rng2) := rng1.randrange layout.num_cols
        if i ≠ j then
          row_choices layout rest (choices1 ++ [Action.swap r i j]) rng2
        else row_choices layout rest choices1 rng2

/-- `random_legal_action` from `generator.py`: build the choice list (row
actions, then `col_down`/`col_up` for each of the 5 columns) and pick one. -/
def random_legal_action (layout : Layout) (rng : Rng) (_players : Nat) :
    Action × Rng :=
  let (rowChoices, rng1) := row_choices layout (List.range layout.num_rows) [] rng
  let colChoices := (List.range layout.num_cols).flatMap fun c =>
    [Action.col_down c, Action.col_up c]
  rng1.choice (rowChoices ++ colChoices)

/-- The `for _ in range(steps)` loop of `scramble_from_solved`, recording the
actions taken in order. -/
def scramble_loop (players : Nat) :
    Nat → Layout → List Action → Rng → Layout × List Action × Rng
  | 0, layout, acts, rng => (layout, acts, rng)
  | Nat.succ n, layout, acts, rng =>
      let (a, rng1) := random_legal_action layout rng players
      scramble_loop players n (apply_action layout a) (acts ++ [a]) rng1

/-- `scramble_from_solved` from `generator.py`: clone, walk `steps` random
legal actions, and return the scrambled layout with the solution = the
inverses of the recorded actions in reverse order. -/
def scramble_from_solved (solved : Layout) (steps : Nat) (rng : Rng)
    (players : Nat) : Layout × List Action :=
  let (layout, actions_taken, _) := scramble_loop players steps solved.clone [] rng
  (layout, (actions_taken.reverse).map inverse_action)

/-- `EloConfig` from `elo.py`, with its dataclass defaults.  Float fields are
idealised as rationals. -/
structure EloConfig where
  initial_rating : ℚ := 1200
  k_factor : ℚ := 32
  level_base : ℚ := 1000
  level_scale : ℚ := 80
  recency_halflife_days : ℚ := 30
deriving DecidableEq, Repr, Inhabited

/-- `RankedDifficultyConfig` from `elo.py`, with its dataclass defaults. -/
structure RankedDifficultyConfig where
  min_level : ℤ := 1
  max_level : ℤ := 20
  window_games : ℤ := 20
  floor_level_at_low_winrate : ℤ := 1
  ceil_level_at_high_winrate : ℤ := 10
  low_winrate_threshold : ℚ := 35 / 100
  high_winrate_threshold : ℚ := 65 / 100
  blend_with_elo : Bool := true
  elo_min : ℚ := 1000
  elo_max : ℚ := 1800
  elo_to_level_min : ℤ := 2
  elo_to_level_max : ℤ := 12
  clamp_delta_per_game : ℤ := 2
deriving DecidableEq, Repr, Inhabited

/-- A result tuple `(created_at_iso, solved_int, level, seconds)`. -/
def GameResult : Type := String × ℤ × ℤ × Option ℤ

/-- `created_at_iso` component. -/
def GameResult.created_at (r : GameResult) : String := r.1

/-- `solved_int` component. -/
def GameResult.solved (r : GameResult) : ℤ := r.2.1

/-- `level` component. -/
def GameResult.level (r : GameResult) : ℤ := r.2.2.1

/-- `_expected_score` from `elo.py`; `pow` stands for the float `**`. -/
def expected_score (pow : ℚ → ℚ → ℚ) (player_rating opponent_rating : ℚ) : ℚ :=
  1 / (1 + pow 10 ((opponent_rating - player_rating) / 400))

/-- `_game_weight` from `elo.py`.  `parse` stands for
`datetime.fromisoformat` (returning an epoch instant in seconds, `none` on
the exception path) and `now` for the evaluation-time clock. -/
def game_weight (pow : ℚ → ℚ → ℚ) (parse : String → Option ℚ)
    (created_at_iso : String) (now : ℚ) (cfg : EloConfig) : ℚ :=
  match parse created_at_iso with
  | none => 1
  | some played =>
      let age_days := max 0 ((now - played) / 86400)
      if cfg.recency_halflife_days ≤ 0 then 1
      else pow (1 / 2) (age_days / cfg.recency_halflife_days)

/-- `_opponent_rating_from_level` from `elo.py`. -/
def opponent_rating_from_level (level : ℤ) (cfg : EloConfig) : ℚ :=
  cfg.level_base + cfg.level_scale * (level : ℚ)

/-- `compute_user_elo` from `elo.py`: the chronological fold of rating
updates starting from `initial_rating`. -/
def compute_user_elo (pow : ℚ → ℚ → ℚ) (parse : String → Option ℚ) (now : ℚ)
    (results : List GameResult) (cfg : EloConfig) : ℚ :=
  results.foldl
    (fun rating r =>
      let opp_rating := opponent_rating_from_level r.level cfg
      let expected := expected_score pow rating opp_rating
      let actual : ℚ := if r.solved = 1 then 1 else 0
      let w := game_weight pow parse r.created_at now cfg
      let k := cfg.k_factor * w
      rating + k * (actual - expected))
    cfg.initial_rating

/-- Python `round` (banker's rounding, half to even) on a rational, as used
via `int(round(x))` in `elo.py`. -/
def pyRound (q : ℚ) : ℤ :=
  let f := ⌊q⌋
  let r := q - (f : ℚ)
  if r < 1 / 2 then f
  else if 1 / 2 < r then f + 1
  else if f % 2 = 0 then f else f + 1

/-- Python `l[s:]` slicing with a possibly negative start. -/
def pySliceFrom (s : ℤ) (l : List α) : List α :=
  let n : ℤ := l.length
  let start := if s < 0 then max 0 (n + s) else min s n
  l.drop start.toNat

/-- Lines 144-155 of `elo.py`: clamp the move away from the previous level
to `clamp_delta_per_game` (when a previous game exists), then clamp the
result into `[min_level, max_level]`. -/
def smooth_clamp (cfg : RankedDifficultyConfig) (last_level? : Option ℤ)
    (target : ℤ) : ℤ :=
  let t1 :=
    match last_level? with
    | some last_level =>
        let delta := target - last_level
        if delta > cfg.clamp_delta_per_game then
          last_level + cfg.clamp_delta_per_game
        else if delta < -cfg.clamp_delta_per_game then
          last_level - cfg.clamp_delta_per_game
        else target
    | none => target
  max cfg.min_level (min cfg.max_level t1)

/-- `select_ranked_level` from `elo.py`. -/
def select_ranked_level (recent_ranked_results : List GameResult)
    (user_elo : ℚ) (cfg : RankedDifficultyConfig) : ℤ :=
  let tail :=
    if cfg.window_games ≠ 0 ∧
        cfg.window_games < (recent_ranked_results.length : ℤ) then
      pySliceFrom (-cfg.window_games) recent_ranked_results
    else recent_ranked_results
  let attempts := tail.length
  let wins := (tail.filter fun t => t.solved == 1).length
  let win_rate : ℚ := if attempts > 0 then (wins : ℚ) / (attempts : ℚ) else 1 / 2
  let wr_level : ℤ :=
    if win_rate ≤ cfg.low_winrate_threshold then cfg.floor_level_at_low_winrate
    else if win_rate ≥ cfg.high_winrate_threshold then
      cfg.ceil_level_at_high_winrate
    else
      let span := cfg.high_winrate_threshold - cfg.low_winrate_threshold
      let frac :=
        if span > 0 then (win_rate - cfg.low_winrate_threshold) / span else 1 / 2
      pyRound ((cfg.floor_level_at_low_winrate : ℚ) +
        frac * ((cfg.ceil_level_at_high_winrate : ℚ) -
          (cfg.floor_level_at_low_winrate : ℚ)))
  let target_level : ℤ :=
    if cfg.blend_with_elo then
      let elo_level : ℤ :=
        if user_elo ≤ cfg.elo_min then cfg.elo_to_level_min
        else if user_elo ≥ cfg.elo_max then cfg.elo_to_level_max
        else
          let frac := (user_elo - cfg.elo_min) / (cfg.elo_max - cfg.elo_min)
          pyRound ((cfg.elo_to_level_min : ℚ) +
            frac * ((cfg.elo_to_level_max : ℚ) - (cfg.elo_to_level_min : ℚ)))
      pyRound (((wr_level : ℚ) + (elo_level : ℚ)) / 2)
    else wr_level
  smooth_clamp cfg ((recent_ranked_results.getLast?).map (·.level)) target_level

/-- The multiset of cards (card codes) across the whole Layout: grid cells,
row reserves and column reserves. -/
def Layout.allCards (L : Layout) : Multiset Card :=
  (L.rows.flatten : Multiset Card) + (L.row_reserves.flatten : Multiset Card)
    + (L.col_reserves.flatten : Multiset Card)

/-- Whether an action is of row type (references a `row_index`). -/
def Action.isRowType : Action → Bool
  | .swap _ _ _ => true
  | .row_right _ => true
  | .row_left _ => true
  | .col_down _ => false
  | .col_up _ => false

/-- The `row_index` parameter of a row-type action (0 for column actions). -/
def Action.rowParam : Action → Nat
  | .swap r _ _ => r
  | .row_right r => r
  | .row_left r => r
  | .col_down _ => 0
  | .col_up _ => 0

/-- The property claimed of a 3-player solution: each row-type action at
position `idx` references row `1 + (idx mod 3)`. -/
def cycleProperty (sol : List Action) : Prop :=
  ∀ idx, (h : idx < sol.length) → (sol.get ⟨idx, h⟩).isRowType = true →
    (sol.get ⟨idx, h⟩).rowParam = 1 + idx % 3

instance (sol : List Action) : Decidable (cycleProperty sol) := by
  unfold cycleProperty
  infer_instance

/-- The rating fold exactly as the specification words it: weight
`0.5 ^ (ageInDays / recency_halflife_days)` for every parseable timestamp
(no guard on the sign of the half-life), weight 1 for unparseable ones. -/
def elo_claimed_fold (pow : ℚ → ℚ → ℚ) (parse : String → Option ℚ) (now : ℚ)
    (results : List GameResult) (cfg : EloConfig) : ℚ :=
  results.foldl
    (fun rating r =>
      let opponent_rating := cfg.level_base + cfg.level_scale * (r.level : ℚ)
      let expected := 1 / (1 + pow 10 ((opponent_rating - rating) / 400))
      let actual : ℚ := if r.solved = (1 : ℤ) then 1 else 0
      let weight : ℚ :=
        match parse r.created_at with
        | none => 1
        | some played =>
            pow (1 / 2) (max 0 ((now - played) / 86400) / cfg.recency_halflife_days)
      rating + cfg.k_factor * weight * (actual - expected))
    cfg.initial_rating

/-- The claimed fold amended by the one guard the code actually has: a
non-positive configured half-life short-circuits the weight to 1. -/
def elo_amended_fold (pow : ℚ → ℚ → ℚ) (parse : String → Option ℚ) (now : ℚ)
    (results : List GameResult) (cfg : EloConfig) : ℚ :=
  results.foldl
    (fun rating r =>
      let opponent_rating := cfg.level_base + cfg.level_scale * (r.level : ℚ)
      let expected := 1 / (1 + pow 10 ((opponent_rating - rating) / 400))
      let actual : ℚ := if r.solved = (1 : ℤ) then 1 else 0
      let weight : ℚ :=
        match parse r.created_at with
        | none => 1
        | some played =>
            if cfg.recency_halflife_days ≤ 0 then 1
            else pow (1 / 2) (max 0 ((now - played) / 86400) / cfg.recency_halflife_days)
      rating + cfg.k_factor * weight * (actual - expected))
    cfg.initial_rating

/-- The all-zeros random stream. -/
def rngZero : Rng := { stream := fun _ => 0, pos := 0 }

/-- A linear-congruential random stream whose first construction attempt for
3 players already succeeds. -/
def rngBuild3 : Rng :=
  { stream := fun n => (1103515245 * (n + 2) + 12345) % 2147483648, pos := 0 }

/-- The concrete 3-player construction run used as evidence below. -/
def buildResult3 : Except String (Layout × BuildMeta) :=
  build_solved_layout 3 rngBuild3 2000

/-- The layout of that concrete run. -/
def layout3 : Layout :=
  match buildResult3 with
  | .ok p => p.1
  | .error _ => default

/-- The metadata of that concrete run. -/
def meta3 : BuildMeta :=
  match buildResult3 with
  | .ok p => p.2
  | .error _ => default

/-- A small well-formed two-row Layout used as concrete witness input. -/
def sampleLayout : Layout :=
  { rows := [
      [⟨2, .S⟩, ⟨3, .S⟩, ⟨4, .S⟩, ⟨5, .S⟩, ⟨6, .S⟩],
      [⟨2, .H⟩, ⟨3, .H⟩, ⟨4, .H⟩, ⟨5, .H⟩, ⟨6, .H⟩]],
    row_reserves := [[⟨7, .S⟩, ⟨8, .S⟩], [⟨7, .H⟩, ⟨8, .H⟩]],
    col_reserves := [[⟨2, .D⟩, ⟨3, .D⟩], [⟨4, .D⟩, ⟨5, .D⟩],
      [⟨6, .D⟩, ⟨7, .D⟩], [⟨8, .D⟩, ⟨9, .D⟩], [⟨10, .D⟩, ⟨11, .D⟩]],
    opponent_row_index := 0 }

/-- Config for the difficulty-clamp counterexample: defaults except that
`max_level` is 5, below the previous game's level. -/
def c5cfg : RankedDifficultyConfig := { max_level := 5 }

/-- One previous ranked game, won at level 10. -/
def c5results : List GameResult := [("2024-01-01T00:00:00", 1, 10, none)]

/-- Concrete stand-in for float `**` in the rating counterexample. -/
def c7pow : ℚ → ℚ → ℚ :=
  fun b e => if b = 10 then 1 else if e = -1 then 2 else 0

/-- Concrete timestamp parser: everything parses to the epoch. -/
def c7parse : String → Option ℚ := fun _ => some 0

/-- Rating config with a negative recency half-life. -/
def c7cfg : EloConfig := { recency_halflife_days := -1 }

/-- A single won game at level 0. -/
def c7results : List GameResult := [("2024-01-01T00:00:00", 1, 0, none)]

/-- A concrete action sequence (valid on `sampleLayout`) for witnesses. -/
def sampleActs : List Action :=
  [.row_right 1, .col_down 2, .swap 1 0 3, .col_up 2, .row_left 1]

/-- An in-range index yields an element of the list. -/
theorem exists_get?_of_lt (l : List α) {i : Nat} (h : i < l.length) :
    ∃ a, l.get? i = some a ∧ a ∈ l :=
  ⟨l.get ⟨i, h⟩, List.get?_eq_get h, List.get_mem l i h⟩

/-- Reading back an in-range `set`. -/
theorem get?_set_self (l : List α) (i : Nat) (a : α) (h : i < l.length) :
    (l.set i a).get? i = some a := by
  rw [List.get?_set_eq, List.get?_eq_get h]
  rfl

/-- Writing the value already present is the identity. -/
theorem set_of_get? {l : List α} {i : Nat} {a : α} (h : l.get? i = some a) :
    l.set i a = l := by
  induction l generalizing i with
  | nil => simp at h
  | cons x xs ih =>
      cases i with
      | zero => simp at h; simp [h]
      | succ k => simpa using ih (by simpa using h)

/-- Destructor for the 5-cell rows of the game grid. -/
theorem len5_destruct (l : List α) (h : l.length = 5) :
    ∃ a0 a1 a2 a3 a4, l = [a0, a1, a2, a3, a4] := by
  match l, h with
  | [a0, a1, a2, a3, a4], _ => exact ⟨a0, a1, a2, a3, a4, rfl⟩

/-- Destructor for the `[top, bottom]` reserve pairs. -/
theorem len2_destruct (l : List α) (h : l.length = 2) :
    ∃ t b, l = [t, b] := by
  match l, h with
  | [t, b], _ => exact ⟨t, b, rfl⟩

/-- `rowRight` then `rowLeft` on the same row restores the Layout. -/
theorem shift_row_right_left (L : Layout) (r : Nat) (hwf : L.wf)
    (hr : r < L.rows.length) : (L.shift_row_right r).shift_row_left r = L := by
  obtain ⟨hne, hrow5, hlen, hres2, hc5, hcr2⟩ := hwf
  obtain ⟨row, hrowget, hrowmem⟩ := exists_get?_of_lt L.rows hr
  have hr2 : r < L.row_reserves.length := by rw [hlen]; exact hr
  obtain ⟨res, hresget, hresmem⟩ := exists_get?_of_lt L.row_reserves hr2
  obtain ⟨a0, a1, a2, a3, a4, rfl⟩ := len5_destruct row (hrow5 row hrowmem)
  obtain ⟨t, b, rfl⟩ := len2_destruct res (hres2 res hresmem)
  simp only [Layout.shift_row_right, hrowget, hresget]
  simp only [Layout.shift_row_left,
    get?_set_self L.rows r _ hr, get?_set_self L.row_reserves r _ hr2,
    List.set_set, set_of_get? hrowget, set_of_get? hresget]

/-- `rowLeft` then `rowRight` on the same row restores the Layout. -/
theorem shift_row_left_right (L : Layout) (r : Nat) (hwf : L.wf)
    (hr : r < L.rows.length) : (L.shift_row_left r).shift_row_right r = L := by
  obtain ⟨hne, hrow5, hlen, hres2, hc5, hcr2⟩ := hwf
  obtain ⟨row, hrowget, hrowmem⟩ := exists_get?_of_lt L.rows hr
  have hr2 : r < L.row_reserves.length := by rw [hlen]; exact hr
  obtain ⟨res, hresget, hresmem⟩ := exists_get?_of_lt L.row_reserves hr2
  obtain ⟨a0, a1, a2, a3, a4, rfl⟩ := len5_destruct row (hrow5 row hrowmem)
  obtain ⟨t, b, rfl⟩ := len2_destruct res (hres2 res hresmem)
  simp only [Layout.shift_row_left, hrowget, hresget]
  simp only [Layout.shift_row_right,
    get?_set_self L.rows r _ hr, get?_set_self L.row_reserves r _ hr2,
    List.set_set, set_of_get? hrowget, set_of_get? hresget]

/-- A successful read is at an in-range index. -/
theorem lt_of_get?_some {l : List α} {i : Nat} {a : α} (h : l.get? i = some a) :
    i < l.length := by
  obtain ⟨hlt, -⟩ := List.get?_eq_some.mp h
  exact hlt

/-- Two sequential in-place updates at the same index compose. -/
theorem setRowG_same (l : List α) (k : Nat) (f g : α → α) :
    setRowG (setRowG l k f) k g = setRowG l k (fun x => g (f x)) := by
  cases h : l.get? k with
  | none => simp only [setRowG, h]
  | some row =>
      have hk := lt_of_get?_some h
      simp only [setRowG, h, get?_set_self l k (f row) hk, List.set_set]

/-- An update that fixes the stored row is the identity. -/
theorem setRowG_id (l : List α) (k : Nat) (f : α → α)
    (h : ∀ row, l.get? k = some row → f row = row) : setRowG l k f = l := by
  cases hg : l.get? k with
  | none => simp only [setRowG, hg]
  | some row => simp only [setRowG, hg, h row hg, set_of_get? hg]

/-- In-place updates at distinct indices commute. -/
theorem setRowG_comm (l : List α) (k₁ k₂ : Nat) (hne : k₁ ≠ k₂) (f g : α → α) :
    setRowG (setRowG l k₁ f) k₂ g = setRowG (setRowG l k₂ g) k₁ f := by
  cases h₁ : l.get? k₁ with
  | none =>
      cases h₂ : l.get? k₂ with
      | none => simp only [setRowG, h₁, h₂]
      | some row₂ =>
          simp only [setRowG, h₁, h₂, List.get?_set_ne _ _ hne.symm]
  | some row₁ =>
      cases h₂ : l.get? k₂ with
      | none =>
          simp only [setRowG, h₁, h₂, List.get?_set_ne _ _ hne]
      | some row₂ =>
          simp only [setRowG, h₁, h₂, List.get?_set_ne _ _ hne,
            List.get?_set_ne _ _ hne.symm]
          exact List.set_comm _ _ l hne

/-- `swapNth` preserves list length. -/
theorem swapNth_length (l : List α) (i j : Nat) :
    (swapNth l i j).length = l.length := by
  unfold swapNth
  cases l.get? i <;> cases l.get? j <;> simp [List.length_set]

/-- Unfolding equation for `swapNth` at in-range indices. -/
theorem swapNth_eq {l : List α} {i j : Nat} {a b : α}
    (ha : l.get? i = some a) (hb : l.get? j = some b) :
    swapNth l i j = (l.set i b).set j a := by
  simp only [swapNth, ha, hb]

/-- Swapping the same two in-range positions twice restores the list. -/
theorem swapNth_involutive (row : List α) (i j : Nat)
    (hi : i < row.length) (hj : j < row.length) :
    swapNth (swapNth row i j) i j = row := by
  obtain ⟨a, ha, -⟩ := exists_get?_of_lt row hi
  obtain ⟨b, hb, -⟩ := exists_get?_of_lt row hj
  by_cases hij : i = j
  · subst hij
    have hba : b = a := by rw [ha] at hb; exact (Option.some.inj hb).symm
    subst hba
    have hfix : swapNth row i i = row := by
      simp only [swapNth, ha, List.set_set, set_of_get? ha]
    rw [hfix, hfix]
  · have h1 : swapNth row i j = (row.set i b).set j a := swapNth_eq ha hb
    have hi2 : (swapNth row i j).get? i = some b := by
      rw [h1, List.get?_set_ne _ _ (Ne.symm hij), get?_set_self row i b hi]
    have hj2 : (swapNth row i j).get? j = some a := by
      rw [h1, get?_set_self _ j a (by rw [List.length_set]; exact hj)]
    rw [swapNth_eq hi2 hj2, h1,
      List.set_comm a a (row.set i b) (Ne.symm hij)]
    simp only [List.set_set]
    rw [set_of_get? ha, set_of_get? hb]

/-- Two same-index applications of an in-range cell swap cancel on a grid
whose rows all have 5 cells. -/
theorem setRowG_swap_cancel (l : List (List Card)) (k i j : Nat)
    (h5 : ∀ row ∈ l, row.length = 5) (hi : i < 5) (hj : j < 5) :
    setRowG (setRowG l k (fun row => swapNth row i j)) k
      (fun row => swapNth row i j) = l := by
  rw [setRowG_same]
  refine setRowG_id l k _ fun row hrow => ?_
  have hlen : row.length = 5 := h5 row (List.get?_mem hrow)
  exact swapNth_involutive row i j (by rw [hlen]; exact hi)
    (by rw [hlen]; exact hj)

/-- Reading back an in-range cell write. -/
theorem getD_set_self (row : List α) (c : Nat) (v d : α) (h : c < row.length) :
    (row.set c v).getD c d = v := by
  rw [List.getD_eq_get?, get?_set_self row c v h]
  rfl

/-- Writing back the cell already present is the identity. -/
theorem set_getD_self (row : List α) (c : Nat) (d : α) (h : c < row.length) :
    row.set c (row.getD c d) = row := by
  obtain ⟨a, ha, -⟩ := exists_get?_of_lt row h
  rw [List.getD_eq_get?, ha]
  exact set_of_get? ha

/-- `setColumn` keeps the number of rows when the value list is long enough. -/
theorem setColumn_length (rows : List (List Card)) (c : Nat)
    (vals : List Card) (h : rows.length ≤ vals.length) :
    (setColumn rows c vals).length = rows.length := by
  simp [setColumn, List.length_zip]
  omega

/-- Reading a column back after writing it. -/
theorem getColumn_setColumn (c : Nat) :
    ∀ (rows : List (List Card)) (vals : List Card),
      rows.length = vals.length → (∀ row ∈ rows, c < row.length) →
      getColumn (setColumn rows c vals) c = vals
  | [], [], _, _ => rfl
  | row :: rows, v :: vals, hlen, hc => by
      have ih := getColumn_setColumn c rows vals (by simpa using hlen)
        (fun r hr => hc r (List.mem_cons_of_mem _ hr))
      simp only [setColumn, getColumn, List.zip_cons_cons, List.map_cons] at ih ⊢
      rw [getD_set_self row c v dummyCard (hc row (List.mem_cons_self _ _))]
      exact congrArg (v :: ·) ih

/-- Overwriting a column overwrites the previous write. -/
theorem setColumn_setColumn (c : Nat) :
    ∀ (rows : List (List Card)) (v1 v2 : List Card),
      rows.length = v1.length →
      setColumn (setColumn rows c v1) c v2 = setColumn rows c v2
  | [], _, _, _ => rfl
  | row :: rows, [], v2, hlen => by simp at hlen
  | row :: rows, w :: v1, [], hlen => rfl
  | row :: rows, w :: v1, v :: v2, hlen => by
      have ih := setColumn_setColumn c rows v1 v2 (by simpa using hlen)
      simp only [setColumn, List.zip_cons_cons, List.map_cons] at ih ⊢
      rw [List.set_set]
      exact congrArg _ ih

/-- Writing a column back onto itself is the identity. -/
theorem setColumn_getColumn (c : Nat) :
    ∀ (rows : List (List Card)), (∀ row ∈ rows, c < row.length) →
      setColumn rows c (getColumn rows c) = rows
  | [], _ => rfl
  | row :: rows, hc => by
      have ih := setColumn_getColumn c rows
        (fun r hr => hc r (List.mem_cons_of_mem _ hr))
      simp only [setColumn, getColumn, List.zip_cons_cons, List.map_cons] at ih ⊢
      rw [set_getD_self row c dummyCard (hc row (List.mem_cons_self _ _))]
      exact congrArg _ ih

/-- `colDown` then `colUp` on the same column restores the Layout. -/
theorem shift_col_down_up (L : Layout) (c : Nat) (hwf : L.wf)
    (hc : c < 5) : (L.shift_col_down c).shift_col_up c = L := by
  obtain ⟨hne, hrow5, hlen, hres2, hc5, hcr2⟩ := hwf
  have hclen : c < L.col_reserves.length := by rw [hc5]; exact hc
  obtain ⟨cres, hcres, hcresmem⟩ := exists_get?_of_lt L.col_reserves hclen
  obtain ⟨t, b, rfl⟩ := len2_destruct cres (hcr2 cres hcresmem)
  obtain ⟨lastRow, hlast⟩ :=
    Option.ne_none_iff_exists'.mp (mt List.getLast?_eq_none_iff.mp hne)
  have hcrow : ∀ row ∈ L.rows, c < row.length := fun row hr => by
    rw [hrow5 row hr]; exact hc
  have hcollen : (getColumn L.rows c).length = L.rows.length :=
    List.length_map _ _
  have hcolne : getColumn L.rows c ≠ [] := by
    rw [← List.length_pos, hcollen, List.length_pos]
    exact hne
  have hnewlen : (t :: (getColumn L.rows c).dropLast).length = L.rows.length := by
    simp only [List.length_cons, List.length_dropLast, hcollen]
    have := List.length_pos.mpr hne
    omega
  simp only [Layout.shift_col_down, hcres, hlast]
  have hrows1len : (setColumn L.rows c
      (t :: (getColumn L.rows c).dropLast)).length = L.rows.length :=
    setColumn_length _ _ _ (by rw [hnewlen])
  have hrows1ne : setColumn L.rows c
      (t :: (getColumn L.rows c).dropLast) ≠ [] := by
    rw [← List.length_pos, hrows1len, List.length_pos]
    exact hne
  obtain ⟨firstRow1, hfirst1⟩ :=
    Option.ne_none_iff_exists'.mp (mt List.head?_eq_none_iff.mp hrows1ne)
  have hcol1 : getColumn (setColumn L.rows c
      (t :: (getColumn L.rows c).dropLast)) c =
      t :: (getColumn L.rows c).dropLast :=
    getColumn_setColumn c _ _ hnewlen.symm hcrow
  have hfirstget : firstRow1.getD c dummyCard = t := by
    have hh : (getColumn (setColumn L.rows c
        (t :: (getColumn L.rows c).dropLast)) c).head? = some t := by
      rw [hcol1]; rfl
    rw [getColumn, List.head?_map, hfirst1] at hh
    exact Option.some.inj hh
  have hbtm : lastRow.getD c dummyCard = (getColumn L.rows c).getLast hcolne := by
    have hh : (getColumn L.rows c).getLast? = some (lastRow.getD c dummyCard) := by
      rw [getColumn, List.getLast?_map, hlast]
      rfl
    rw [List.getLast?_eq_getLast _ hcolne] at hh
    exact (Option.some.inj hh).symm
  simp only [Layout.shift_col_up, get?_set_self L.col_reserves c _ hclen,
    hfirst1, hfirstget, hcol1, List.tail_cons, List.set_set]
  rw [hbtm, List.dropLast_append_getLast hcolne,
    setColumn_setColumn c _ _ _ hnewlen.symm, setColumn_getColumn c _ hcrow,
    set_of_get? hcres]

/-- `colUp` then `colDown` on the same column restores the Layout. -/
theorem shift_col_up_down (L : Layout) (c : Nat) (hwf : L.wf)
    (hc : c < 5) : (L.shift_col_up c).shift_col_down c = L := by
  obtain ⟨hne, hrow5, hlen, hres2, hc5, hcr2⟩ := hwf
  have hclen : c < L.col_reserves.length := by rw [hc5]; exact hc
  obtain ⟨cres, hcres, hcresmem⟩ := exists_get?_of_lt L.col_reserves hclen
  obtain ⟨t, b, rfl⟩ := len2_destruct cres (hcr2 cres hcresmem)
  obtain ⟨firstRow, hfirst⟩ :=
    Option.ne_none_iff_exists'.mp (mt List.head?_eq_none_iff.mp hne)
  have hcrow : ∀ row ∈ L.rows, c < row.length := fun row hr => by
    rw [hrow5 row hr]; exact hc
  have hcollen : (getColumn L.rows c).length = L.rows.length :=
    List.length_map _ _
  have hcolne : getColumn L.rows c ≠ [] := by
    rw [← List.length_pos, hcollen, List.length_pos]
    exact hne
  have hnewlen : ((getColumn L.rows c).tail ++ [b]).length = L.rows.length := by
    simp only [List.length_append, List.length_tail, hcollen]
    have := List.length_pos.mpr hne
    simp
    omega
  simp only [Layout.shift_col_up, hcres, hfirst]
  have hrows1len : (setColumn L.rows c
      ((getColumn L.rows c).tail ++ [b])).length = L.rows.length :=
    setColumn_length _ _ _ (by rw [hnewlen])
  have hrows1ne : setColumn L.rows c
      ((getColumn L.rows c).tail ++ [b]) ≠ [] := by
    rw [← List.length_pos, hrows1len, List.length_pos]
    exact hne
  obtain ⟨lastRow1, hlast1⟩ :=
    Option.ne_none_iff_exists'.mp (mt List.getLast?_eq_none_iff.mp hrows1ne)
  have hcol1 : getColumn (setColumn L.rows c
      ((getColumn L.rows c).tail ++ [b])) c =
      (getColumn L.rows c).tail ++ [b] :=
    getColumn_setColumn c _ _ hnewlen.symm hcrow
  have hlastget : lastRow1.getD c dummyCard = b := by
    have hh : (getColumn (setColumn L.rows c
        ((getColumn L.rows c).tail ++ [b])) c).getLast? = some b := by
      rw [hcol1]
      exact List.getLast?_concat _
    rw [getColumn, List.getLast?_map, hlast1] at hh
    exact Option.some.inj hh
  have hheadget : firstRow.getD c dummyCard =
      (getColumn L.rows c).head hcolne := by
    have hh : (getColumn L.rows c).head? = some (firstRow.getD c dummyCard) := by
      rw [getColumn, List.head?_map, hfirst]
      rfl
    rw [List.head?_eq_head hcolne] at hh
    exact (Option.some.inj hh).symm
  simp only [Layout.shift_col_down, get?_set_self L.col_reserves c _ hclen,
    hlast1, hlastget, hcol1, List.dropLast_concat, List.set_set]
  rw [hheadget, List.head_cons_tail _ hcolne,
    setColumn_setColumn c _ _ _ hnewlen.symm, setColumn_getColumn c _ hcrow,
    set_of_get? hcres]

/-- `setRowG` preserves length. -/
theorem setRowG_length (l : List α) (k : Nat) (f : α → α) :
    (setRowG l k f).length = l.length := by
  unfold setRowG
  split <;> simp [List.length_set]

/-- Members of `setRowG l k f` are members of `l` or images under `f`. -/
theorem mem_setRowG {l : List α} {k : Nat} {f : α → α} {row : α}
    (h : row ∈ setRowG l k f) : row ∈ l ∨ ∃ orig ∈ l, row = f orig := by
  unfold setRowG at h
  split at h
  · rename_i r hr
    rcases List.mem_or_eq_of_mem_set h with hm | rfl
    · exact .inl hm
    · exact .inr ⟨r, List.get?_mem hr, rfl⟩
  · exact .inl h

/-- Every action preserves the number of rows. -/
theorem apply_action_rows_length (L : Layout) (a : Action) :
    (apply_action L a).rows.length = L.rows.length := by
  cases a with
  | swap r i j =>
      simp only [apply_action, Layout.swap_with_opponent, setRowG_length]
  | row_right r =>
      simp only [apply_action]
      unfold Layout.shift_row_right
      split <;> simp [List.length_set]
  | row_left r =>
      simp only [apply_action]
      unfold Layout.shift_row_left
      split <;> simp [List.length_set]
  | col_down c =>
      simp only [apply_action]
      unfold Layout.shift_col_down
      split
      · rename_i top bottom lastRow h1 h2
        have hne : L.rows ≠ [] := by
          intro h
          rw [h] at h2
          simp at h2
        have hpos := List.length_pos.mpr hne
        apply setColumn_length
        simp only [List.length_cons, List.length_dropLast, getColumn,
          List.length_map]
        omega
      · rfl
  | col_up c =>
      simp only [apply_action]
      unfold Layout.shift_col_up
      split
      · rename_i top bottom firstRow h1 h2
        have hne : L.rows ≠ [] := by
          intro h
          rw [h] at h2
          simp at h2
        have hpos := List.length_pos.mpr hne
        apply setColumn_length
        simp only [List.length_append, List.length_tail, getColumn,
          List.length_map, List.length_cons, List.length_nil]
        omega
      · rfl

/-- Every action preserves the opponent row index. -/
theorem apply_action_opponent (L : Layout) (a : Action) :
    (apply_action L a).opponent_row_index = L.opponent_row_index := by
  cases a with
  | swap r i j => rfl
  | row_right r =>
      simp only [apply_action]
      unfold Layout.shift_row_right
      split <;> rfl
  | row_left r =>
      simp only [apply_action]
      unfold Layout.shift_row_left
      split <;> rfl
  | col_down c =>
      simp only [apply_action]
      unfold Layout.shift_col_down
      split <;> rfl
  | col_up c =>
      simp only [apply_action]
      unfold Layout.shift_col_up
      split <;> rfl

/-- `rowRight` preserves well-formedness. -/
theorem shift_row_right_wf (L : Layout) (r : Nat) (hwf : L.wf) :
    (L.shift_row_right r).wf := by
  obtain ⟨hne, hrow5, hlen, hres2, hc5, hcr2⟩ := hwf
  unfold Layout.shift_row_right
  split
  · rename_i a0 a1 a2 a3 a4 top bottom h1 h2
    refine ⟨?_, ?_, ?_, ?_, ?_, ?_⟩
    · show List.set _ _ _ ≠ []
      rw [← List.length_pos, List.length_set, List.length_pos]
      exact hne
    · intro row hrow
      rcases List.mem_or_eq_of_mem_set hrow with hm | rfl
      · exact hrow5 _ hm
      · rfl
    · simp only [List.length_set]
      exact hlen
    · intro p hp
      rcases List.mem_or_eq_of_mem_set hp with hm | rfl
      · exact hres2 _ hm
      · rfl
    · exact hc5
    · exact hcr2
  · exact ⟨hne, hrow5, hlen, hres2, hc5, hcr2⟩

/-- `rowLeft` preserves well-formedness. -/
theorem shift_row_left_wf (L : Layout) (r : Nat) (hwf : L.wf) :
    (L.shift_row_left r).wf := by
  obtain ⟨hne, hrow5, hlen, hres2, hc5, hcr2⟩ := hwf
  unfold Layout.shift_row_left
  split
  · rename_i a0 a1 a2 a3 a4 top bottom h1 h2
    refine ⟨?_, ?_, ?_, ?_, ?_, ?_⟩
    · show List.set _ _ _ ≠ []
      rw [← List.length_pos, List.length_set, List.length_pos]
      exact hne
    · intro row hrow
      rcases List.mem_or_eq_of_mem_set hrow with hm | rfl
      · exact hrow5 _ hm
      · rfl
    · simp only [List.length_set]
      exact hlen
    · intro p hp
      rcases List.mem_or_eq_of_mem_set hp with hm | rfl
      · exact hres2 _ hm
      · rfl
    · exact hc5
    · exact hcr2
  · exact ⟨hne, hrow5, hlen, hres2, hc5, hcr2⟩

/-- Rows of a `setColumn` image all keep their lengths. -/
theorem setColumn_row_length {rows : List (List Card)} {c : Nat}
    {vals : List Card} {row : List Card} (h : row ∈ setColumn rows c vals) :
    ∃ orig ∈ rows, row.length = orig.length := by
  simp only [setColumn] at h
  obtain ⟨p, hp, rfl⟩ := List.mem_map.mp h
  exact ⟨p.1, (List.of_mem_zip hp).1, List.length_set _ _ _⟩

/-- `colDown` preserves well-formedness. -/
theorem shift_col_down_wf (L : Layout) (c : Nat) (hwf : L.wf) :
    (L.shift_col_down c).wf := by
  obtain ⟨hne, hrow5, hlen, hres2, hc5, hcr2⟩ := hwf
  have hpos := List.length_pos.mpr hne
  unfold Layout.shift_col_down
  split
  · rename_i top bottom lastRow h1 h2
    have hsc : ∀ (v : List Card), L.rows.length ≤ v.length →
        (setColumn L.rows c v).length = L.rows.length :=
      fun v hv => setColumn_length _ _ _ hv
    have hlennew : (setColumn L.rows c
        (top :: (getColumn L.rows c).dropLast)).length = L.rows.length := by
      apply hsc
      simp only [List.length_cons, List.length_dropLast, getColumn,
        List.length_map]
      omega
    refine ⟨?_, ?_, ?_, ?_, ?_, ?_⟩
    · rw [← List.length_pos, hlennew]
      exact hpos
    · intro row hrow
      obtain ⟨orig, horig, heq⟩ := setColumn_row_length hrow
      rw [heq]
      exact hrow5 _ horig
    · rw [hlennew]
      exact hlen
    · exact hres2
    · simp only [List.length_set]
      exact hc5
    · intro p hp
      rcases List.mem_or_eq_of_mem_set hp with hm | rfl
      · exact hcr2 _ hm
      · rfl
  · exact ⟨hne, hrow5, hlen, hres2, hc5, hcr2⟩

/-- `colUp` preserves well-formedness. -/
theorem shift_col_up_wf (L : Layout) (c : Nat) (hwf : L.wf) :
    (L.shift_col_up c).wf := by
  obtain ⟨hne, hrow5, hlen, hres2, hc5, hcr2⟩ := hwf
  have hpos := List.length_pos.mpr hne
  unfold Layout.shift_col_up
  split
  · rename_i top bottom firstRow h1 h2
    have hlennew : (setColumn L.rows c
        ((getColumn L.rows c).tail ++ [bottom])).length = L.rows.length := by
      apply setColumn_length
      simp only [List.length_append, List.length_tail, getColumn,
        List.length_map, List.length_cons, List.length_nil]
      omega
    refine ⟨?_, ?_, ?_, ?_, ?_, ?_⟩
    · rw [← List.length_pos, hlennew]
      exact hpos
    · intro row hrow
      obtain ⟨orig, horig, heq⟩ := setColumn_row_length hrow
      rw [heq]
      exact hrow5 _ horig
    · rw [hlennew]
      exact hlen
    · exact hres2
    · simp only [List.length_set]
      exact hc5
    · intro p hp
      rcases List.mem_or_eq_of_mem_set hp with hm | rfl
      · exact hcr2 _ hm
      · rfl
  · exact ⟨hne, hrow5, hlen, hres2, hc5, hcr2⟩

/-- `swap` preserves well-formedness. -/
theorem swap_with_opponent_wf (L : Layout) (r i j : Nat) (hwf : L.wf) :
    (L.swap_with_opponent r i j).wf := by
  obtain ⟨hne, hrow5, hlen, hres2, hc5, hcr2⟩ := hwf
  have hrows5 : ∀ row ∈ setRowG (setRowG L.rows r (fun row => swapNth row i j))
      L.opponent_row_index (fun row => swapNth row i j), row.length = 5 := by
    intro row hrow
    rcases mem_setRowG hrow with hm | ⟨orig, horig, rfl⟩
    · rcases mem_setRowG hm with hm2 | ⟨orig2, horig2, rfl⟩
      · exact hrow5 _ hm2
      · rw [swapNth_length]
        exact hrow5 _ horig2
    · rw [swapNth_length]
      rcases mem_setRowG horig with hm2 | ⟨orig2, horig2, rfl⟩
      · exact hrow5 _ hm2
      · rw [swapNth_length]
        exact hrow5 _ horig2
  refine ⟨?_, hrows5, ?_, hres2, hc5, hcr2⟩
  · show setRowG _ _ _ ≠ []
    rw [← List.length_pos, setRowG_length, setRowG_length, List.length_pos]
    exact hne
  · show L.row_reserves.length = (setRowG _ _ _).length
    rw [setRowG_length, setRowG_length]
    exact hlen

/-- Every action preserves well-formedness. -/
theorem apply_action_wf (L : Layout) (a : Action) (hwf : L.wf) :
    (apply_action L a).wf := by
  cases a with
  | swap r i j => exact swap_with_opponent_wf L r i j hwf
  | row_right r => exact shift_row_right_wf L r hwf
  | row_left r => exact shift_row_left_wf L r hwf
  | col_down c => exact shift_col_down_wf L c hwf
  | col_up c => exact shift_col_up_wf L c hwf

/-- `swap` applied twice with the same parameters restores the Layout. -/
theorem swap_with_opponent_involutive (L : Layout) (r i j : Nat) (hwf : L.wf)
    (hi : i < 5) (hj : j < 5) :
    (L.swap_with_opponent r i j).swap_with_opponent r i j = L := by
  obtain ⟨hne, hrow5, -, -, -, -⟩ := hwf
  simp only [Layout.swap_with_opponent]
  by_cases hcase : r = L.opponent_row_index
  · rw [hcase,
      setRowG_swap_cancel L.rows L.opponent_row_index i j hrow5 hi hj,
      setRowG_swap_cancel L.rows L.opponent_row_index i j hrow5 hi hj]
  · rw [setRowG_comm (setRowG L.rows r (fun row => swapNth row i j))
      L.opponent_row_index r (Ne.symm hcase) _ _,
      setRowG_swap_cancel L.rows r i j hrow5 hi hj,
      setRowG_swap_cancel L.rows L.opponent_row_index i j hrow5 hi hj]

/-- Applying an action and then its `inverse_action` restores the Layout. -/
theorem apply_inverse (L : Layout) (a : Action) (hwf : L.wf)
    (ha : validAction L a = true) :
    apply_action (apply_action L a) (inverse_action a) = L := by
  cases a with
  | swap r i j =>
      simp only [validAction, Bool.and_eq_true, decide_eq_true_eq] at ha
      obtain ⟨⟨hr, hi⟩, hj⟩ := ha
      simp only [inverse_action, apply_action]
      exact swap_with_opponent_involutive L r i j hwf hi hj
  | row_right r =>
      simp only [validAction, decide_eq_true_eq] at ha
      simp only [inverse_action, apply_action]
      exact shift_row_right_left L r hwf ha
  | row_left r =>
      simp only [validAction, decide_eq_true_eq] at ha
      simp only [inverse_action, apply_action]
      exact shift_row_left_right L r hwf ha
  | col_down c =>
      simp only [validAction, decide_eq_true_eq] at ha
      simp only [inverse_action, apply_action]
      exact shift_col_down_up L c hwf ha
  | col_up c =>
      simp only [validAction, decide_eq_true_eq] at ha
      simp only [inverse_action, apply_action]
      exact shift_col_up_down L c hwf ha

/-- Characterisation of the actions accumulated by the row loop of
`random_legal_action`. -/
theorem mem_row_choices {layout : Layout} {inds : List Nat}
    {acc : List Action} {rng : Rng} {a : Action}
    (h : a ∈ (row_choices layout inds acc rng).1) :
    a ∈ acc ∨ ∃ r ∈ inds, r ≠ layout.opponent_row_index ∧
      (a = .row_right r ∨ a = .row_left r ∨
        ∃ i j, i < 5 ∧ j < 5 ∧ a = .swap r i j) := by
  induction inds generalizing acc rng with
  | nil => exact .inl (by simpa [row_choices] using h)
  | cons r rest ih =>
      rw [row_choices] at h
      by_cases hopp : r = layout.opponent_row_index
      · rw [if_pos hopp] at h
        rcases ih h with hacc | ⟨r1, hr1, hne, hsh⟩
        · exact .inl hacc
        · exact .inr ⟨r1, List.mem_cons_of_mem _ hr1, hne, hsh⟩
      · rw [if_neg hopp] at h
        dsimp only [Rng.randrange, Layout.num_cols] at h
        have hmod : ∀ v : Nat, v % 5 < 5 := fun v => Nat.mod_lt _ (by norm_num)
        split at h
        · rcases ih h with hacc | ⟨r1, hr1, hne, hsh⟩
          · rcases List.mem_append.mp hacc with hacc2 | hs
            · rcases List.mem_append.mp hacc2 with hacc3 | hrl
              · exact .inl hacc3
              · refine .inr ⟨r, List.mem_cons_self _ _, hopp, ?_⟩
                rcases (by simpa using hrl :
                    a = Action.row_right r ∨ a = Action.row_left r) with rfl | rfl
                · exact .inl rfl
                · exact .inr (.inl rfl)
            · refine .inr ⟨r, List.mem_cons_self _ _, hopp, ?_⟩
              have hsa := List.mem_singleton.mp hs
              exact .inr (.inr ⟨_, _, hmod _, hmod _, hsa⟩)
          · exact .inr ⟨r1, List.mem_cons_of_mem _ hr1, hne, hsh⟩
        · rcases ih h with hacc | ⟨r1, hr1, hne, hsh⟩
          · rcases List.mem_append.mp hacc with hacc3 | hrl
            · exact .inl hacc3
            · refine .inr ⟨r, List.mem_cons_self _ _, hopp, ?_⟩
              rcases (by simpa using hrl :
                  a = Action.row_right r ∨ a = Action.row_left r) with rfl | rfl
              · exact .inl rfl
              · exact .inr (.inl rfl)
          · exact .inr ⟨r1, List.mem_cons_of_mem _ hr1, hne, hsh⟩

/-- `rng.choice` picks an element of a non-empty list. -/
theorem choice_mem [Inhabited α] (rng : Rng) (l : List α) (hne : l ≠ []) :
    (rng.choice l).1 ∈ l := by
  have hpos : 0 < l.length := List.length_pos.mpr hne
  have hlt : rng.stream rng.pos % l.length < l.length := Nat.mod_lt _ hpos
  simp only [Rng.choice, Rng.randrange]
  rw [List.getD_eq_get?, List.get?_eq_get hlt]
  exact List.get_mem _ _ _

/-- The action delivered by `random_legal_action` is valid for the layout,
and a row-type action never references the opponent row and always references
an existing row. -/
theorem random_legal_action_spec (layout : Layout) (rng : Rng) (players : Nat)
    (a : Action) (rng2 : Rng)
    (ha : random_legal_action layout rng players = (a, rng2)) :
    validAction layout a = true ∧
    (a.isRowType = true → a.rowParam ≠ layout.opponent_row_index ∧
      a.rowParam < layout.rows.length) := by
  rcases hrc : row_choices layout (List.range layout.num_rows) [] rng
    with ⟨rc, rng1⟩
  have hcolne : ((List.range layout.num_cols).flatMap
      (fun c => [Action.col_down c, Action.col_up c])) ≠ [] := by
    simp [Layout.num_cols, List.range_succ]
  have hmem : a ∈ rc ++ (List.range layout.num_cols).flatMap
      (fun c => [Action.col_down c, Action.col_up c]) := by
    have := choice_mem rng1 (rc ++ (List.range layout.num_cols).flatMap
      (fun c => [Action.col_down c, Action.col_up c])) (by
        apply List.ne_nil_of_length_pos
        rw [List.length_append]
        have h2 := List.length_pos.mpr hcolne
        omega)
    have ha1 : a = (rng1.choice (rc ++ (List.range layout.num_cols).flatMap
        (fun c => [Action.col_down c, Action.col_up c]))).1 := by
      have := congrArg Prod.fst ha
      simp only [random_legal_action, hrc] at this
      exact this.symm
    rw [ha1]
    exact this
  rcases List.mem_append.mp hmem with hrow | hcol
  · have hrow2 : a ∈ (row_choices layout (List.range layout.num_rows) [] rng).1 := by
      rw [hrc]
      exact hrow
    rcases mem_row_choices hrow2 with hfalse | ⟨r, hr, hne, hsh⟩
    · simp at hfalse
    · have hrlt : r < layout.rows.length := by
        simpa [Layout.num_rows] using List.mem_range.mp hr
      rcases hsh with rfl | rfl | ⟨i, j, hi, hj, rfl⟩
      · exact ⟨by simpa [validAction] using hrlt,
          fun _ => ⟨hne, by simpa [Action.rowParam] using hrlt⟩⟩
      · exact ⟨by simpa [validAction] using hrlt,
          fun _ => ⟨hne, by simpa [Action.rowParam] using hrlt⟩⟩
      · exact ⟨by simp [validAction, hrlt, hi, hj],
          fun _ => ⟨hne, by simpa [Action.rowParam] using hrlt⟩⟩
  · simp only [List.mem_flatMap, List.mem_range, Layout.num_cols] at hcol
    obtain ⟨c, hc, hcan⟩ := hcol
    rcases (by simpa using hcan :
        a = Action.col_down c ∨ a = Action.col_up c) with rfl | rfl
    · exact ⟨by simpa [validAction] using hc, by simp [Action.isRowType]⟩
    · exact ⟨by simpa [validAction] using hc, by simp [Action.isRowType]⟩

/-- Induction core for the scrambler: the actions recorded by
`scramble_loop` extend the accumulator, and undoing them (inverses, reversed)
brings the resulting layout back to the starting one, preserving shape. -/
theorem scramble_loop_spec (players : Nat) (n : Nat) :
    ∀ (L : Layout) (acc : List Action) (rng : Rng), L.wf →
      ∃ extra, (scramble_loop players n L acc rng).2.1 = acc ++ extra ∧
        ((extra.reverse.map inverse_action).foldl apply_action
          (scramble_loop players n L acc rng).1) = L ∧
        (scramble_loop players n L acc rng).1.wf ∧
        (scramble_loop players n L acc rng).1.rows.length = L.rows.length ∧
        (scramble_loop players n L acc rng).1.opponent_row_index =
          L.opponent_row_index := by
  induction n with
  | zero =>
      intro L acc rng hwf
      exact ⟨[], by simp [scramble_loop], by simp [scramble_loop], hwf,
        rfl, rfl⟩
  | succ n ih =>
      intro L acc rng hwf
      rcases hra : random_legal_action L rng players with ⟨a, rng1⟩
      obtain ⟨hvalid, -⟩ := random_legal_action_spec L rng players a rng1 hra
      have hwf1 : (apply_action L a).wf := apply_action_wf L a hwf
      obtain ⟨extra, hacts, hundo, hwf2, hlen2, hopp2⟩ :=
        ih (apply_action L a) (acc ++ [a]) rng1 hwf1
      refine ⟨a :: extra, ?_, ?_, ?_, ?_, ?_⟩
      · simp only [scramble_loop, hra, hacts, List.append_assoc,
          List.singleton_append]
      · simp only [scramble_loop, hra, List.reverse_cons, List.map_append,
          List.foldl_append]
        rw [hundo]
        simp only [List.map_cons, List.map_nil, List.foldl_cons,
          List.foldl_nil]
        exact apply_inverse L a hwf hvalid
      · simpa only [scramble_loop, hra] using hwf2
      · rw [scramble_loop, hra]
        dsimp only
        rw [hlen2, apply_action_rows_length]
      · rw [scramble_loop, hra]
        dsimp only
        rw [hopp2, apply_action_opponent]

/-- C1: for every well-formed solved Layout, step count, players count and
deterministic random source, folding the solution actions returned by
`scramble_from_solved` over the scrambled Layout reproduces the solved
Layout exactly, cell for cell and reserve for reserve. -/
theorem scramble_solution_restores (solved : Layout) (steps players : Nat)
    (rng : Rng) (hwf : solved.wf) :
    ((scramble_from_solved solved steps rng players).2).foldl apply_action
      (scramble_from_solved solved steps rng players).1 = solved := by
  obtain ⟨extra, hacts, hundo, -, -, -⟩ :=
    scramble_loop_spec players steps solved.clone [] rng
      (by simpa [Layout.clone] using hwf)
  rcases hsl : scramble_loop players steps solved.clone [] rng
    with ⟨Lfin, acts, rngf⟩
  rw [hsl] at hacts hundo
  simp only [List.nil_append] at hacts hundo
  simp only [scramble_from_solved, hsl]
  rw [hacts]
  simpa [Layout.clone] using hundo

/-- Witness for C1 on a concrete layout, step count and stream. -/
theorem scramble_solution_restores_witness :
    sampleLayout.wf ∧
    ((scramble_from_solved sampleLayout 3 rngZero 1).2).foldl apply_action
      (scramble_from_solved sampleLayout 3 rngZero 1).1 = sampleLayout :=
  ⟨by decide, scramble_solution_restores sampleLayout 3 1 rngZero (by decide)⟩

/-- C2: each shift pair restores the Layout in either order, a repeated
`swap` restores it, `inverse_action` maps the five action tags as specified,
and any valid action composed with its `inverse_action` image is the
identity. -/
theorem action_invertibility (L : Layout) (r c i j : Nat) (a : Action)
    (hwf : L.wf) (hr : r < L.rows.length) (hc : c < 5) (hi : i < 5)
    (hj : j < 5) (ha : validAction L a = true) :
    (L.shift_row_right r).shift_row_left r = L ∧
    (L.shift_row_left r).shift_row_right r = L ∧
    (L.shift_col_down c).shift_col_up c = L ∧
    (L.shift_col_up c).shift_col_down c = L ∧
    (L.swap_with_opponent r i j).swap_with_opponent r i j = L ∧
    inverse_action (.row_right r) = .row_left r ∧
    inverse_action (.row_left r) = .row_right r ∧
    inverse_action (.col_down c) = .col_up c ∧
    inverse_action (.col_up c) = .col_down c ∧
    inverse_action (.swap r i j) = .swap r i j ∧
    apply_action (apply_action L a) (inverse_action a) = L :=
  ⟨shift_row_right_left L r hwf hr, shift_row_left_right L r hwf hr,
   shift_col_down_up L c hwf hc, shift_col_up_down L c hwf hc,
   swap_with_opponent_involutive L r i j hwf hi hj,
   rfl, rfl, rfl, rfl, rfl,
   apply_inverse L a hwf ha⟩

/-- Witness for C2 at a concrete layout and concrete indices. -/
theorem action_invertibility_witness :
    (sampleLayout.shift_row_right 1).shift_row_left 1 = sampleLayout ∧
    (sampleLayout.shift_row_left 1).shift_row_right 1 = sampleLayout ∧
    (sampleLayout.shift_col_down 2).shift_col_up 2 = sampleLayout ∧
    (sampleLayout.shift_col_up 2).shift_col_down 2 = sampleLayout ∧
    (sampleLayout.swap_with_opponent 1 0 3).swap_with_opponent 1 0 3 =
      sampleLayout ∧
    inverse_action (.row_right 1) = .row_left 1 ∧
    inverse_action (.row_left 1) = .row_right 1 ∧
    inverse_action (.col_down 2) = .col_up 2 ∧
    inverse_action (.col_up 2) = .col_down 2 ∧
    inverse_action (.swap 1 0 3) = .swap 1 0 3 ∧
    apply_action (apply_action sampleLayout (.row_right 1))
      (inverse_action (.row_right 1)) = sampleLayout :=
  action_invertibility sampleLayout 1 2 0 3 (.row_right 1) (by decide)
    (by decide) (by decide) (by decide) (by decide) (by decide)

/-- C10: a `swap` that names the opponent row itself is the identity on the
Layout - the two cell exchanges hit the same row twice and cancel. -/
theorem swap_opponent_row_identity (L : Layout) (i j : Nat) (hwf : L.wf)
    (hi : i < 5) (hj : j < 5) :
    L.swap_with_opponent L.opponent_row_index i j = L := by
  obtain ⟨-, hrow5, -, -, -, -⟩ := hwf
  simp only [Layout.swap_with_opponent]
  rw [setRowG_swap_cancel L.rows L.opponent_row_index i j hrow5 hi hj]

/-- Witness for C10 at a concrete layout and indices. -/
theorem swap_opponent_row_identity_witness :
    sampleLayout.swap_with_opponent sampleLayout.opponent_row_index 0 3 =
      sampleLayout :=
  swap_opponent_row_identity sampleLayout 0 3 (by decide) (by decide)
    (by decide)

/-- Replacing an element of a list of lists, at multiset level: the new
flatten plus the old row equals the old flatten plus the new row. -/
theorem flatten_set_multiset (l : List (List Card)) (r : Nat)
    (x row : List Card) (h : l.get? r = some row) :
    (↑(l.set r x).flatten : Multiset Card) + ↑row = ↑l.flatten + ↑x := by
  induction l generalizing r with
  | nil => simp at h
  | cons y ys ih =>
      cases r with
      | zero =>
          have hy : y = row := Option.some.inj h
          subst hy
          simp only [List.set_cons_zero, List.flatten_cons,
            ← Multiset.coe_add]
          abel
      | succ k =>
          have ihk := ih k (by simpa using h)
          simp only [List.set_cons_succ, List.flatten_cons,
            ← Multiset.coe_add]
          calc (↑y + ↑(ys.set k x).flatten : Multiset Card) + ↑row
              = ↑y + (↑(ys.set k x).flatten + ↑row) := by abel
            _ = ↑y + (↑ys.flatten + ↑x) := by rw [ihk]
            _ = ↑y + ↑ys.flatten + ↑x := by abel

/-- Replacing one cell of a row, at multiset level. -/
theorem set_cell_multiset (row : List Card) (c : Nat) (v a : Card)
    (h : row.get? c = some a) :
    (↑(row.set c v) : Multiset Card) + {a} = ↑row + {v} := by
  induction row generalizing c with
  | nil => simp at h
  | cons y ys ih =>
      cases c with
      | zero =>
          have hy : y = a := Option.some.inj h
          subst hy
          simp only [List.set_cons_zero, ← Multiset.cons_coe,
            ← Multiset.singleton_add]
          abel
      | succ k =>
          have ihk := ih k (by simpa using h)
          simp only [List.set_cons_succ, ← Multiset.cons_coe,
            ← Multiset.singleton_add]
          calc ({y} + ↑(ys.set k v) : Multiset Card) + {a}
              = {y} + (↑(ys.set k v) + {a}) := by abel
            _ = {y} + (↑ys + {v}) := by rw [ihk]
            _ = {y} + ↑ys + {v} := by abel

/-- Writing a whole column, at multiset level. -/
theorem setColumn_flatten_multiset (c : Nat) :
    ∀ (rows : List (List Card)) (vals : List Card),
      rows.length = vals.length → (∀ row ∈ rows, c < row.length) →
      (↑(setColumn rows c vals).flatten : Multiset Card) +
        ↑(getColumn rows c) = ↑rows.flatten + ↑vals
  | [], [], _, _ => by simp [setColumn, getColumn]
  | [], v :: vals, hlen, _ => by simp at hlen
  | row :: rows, [], hlen, _ => by simp at hlen
  | row :: rows, v :: vals, hlen, hc => by
      have hcr : c < row.length := hc row (List.mem_cons_self _ _)
      obtain ⟨a, ha, -⟩ := exists_get?_of_lt row hcr
      have hgetD : row.getD c dummyCard = a := by
        rw [List.getD_eq_get?, ha]
        rfl
      have ihk := setColumn_flatten_multiset c rows vals (by simpa using hlen)
        (fun q hq => hc q (List.mem_cons_of_mem _ hq))
      have hcell := set_cell_multiset row c v a ha
      simp only [setColumn, getColumn, List.zip_cons_cons, List.map_cons,
        List.flatten_cons, ← Multiset.coe_add, ← Multiset.cons_coe,
        ← Multiset.singleton_add, hgetD] at ihk hcell ⊢
      calc (↑(row.set c v) + ↑(setColumn rows c vals).flatten : Multiset Card)
            + ({a} + ↑(getColumn rows c))
          = (↑(row.set c v) + {a}) +
              (↑(setColumn rows c vals).flatten + ↑(getColumn rows c)) := by
            abel
        _ = (↑row + {v}) + (↑rows.flatten + ↑vals) := by
            rw [hcell]
            rw [show (↑(setColumn rows c vals).flatten : Multiset Card) +
              ↑(getColumn rows c) = ↑rows.flatten + ↑vals from by
                simpa [setColumn, getColumn] using ihk]
        _ = ↑row + ↑rows.flatten + ({v} + ↑vals) := by abel

/-- `swapNth` at in-range positions preserves the multiset of cells. -/
theorem swapNth_multiset (row : List Card) (i j : Nat)
    (hi : i < row.length) (hj : j < row.length) :
    (↑(swapNth row i j) : Multiset Card) = ↑row := by
  obtain ⟨a, ha, -⟩ := exists_get?_of_lt row hi
  obtain ⟨b, hb, -⟩ := exists_get?_of_lt row hj
  by_cases hij : i = j
  · subst hij
    have hba : b = a := by rw [ha] at hb; exact (Option.some.inj hb).symm
    subst hba
    rw [swapNth_eq ha ha, List.set_set, set_of_get? ha]
  · rw [swapNth_eq ha hb]
    have h1 := set_cell_multiset row i b a ha
    have hXj : (row.set i b).get? j = some b := by
      rw [List.get?_set_ne _ _ hij]
      exact hb
    have h2 := set_cell_multiset (row.set i b) j a b hXj
    rw [h1] at h2
    exact add_right_cancel h2

/-- `setRowG` with a multiset-preserving row function preserves the flatten
multiset. -/
theorem setRowG_flatten_multiset (l : List (List Card)) (k : Nat)
    (f : List Card → List Card)
    (h : ∀ row, l.get? k = some row → (↑(f row) : Multiset Card) = ↑row) :
    (↑(setRowG l k f).flatten : Multiset Card) = ↑l.flatten := by
  cases hg : l.get? k with
  | none => simp only [setRowG, hg]
  | some row =>
      simp only [setRowG, hg]
      have := flatten_set_multiset l k (f row) row hg
      rw [h row hg] at this
      exact add_right_cancel this

/-- Each valid action preserves the multiset of cards across the Layout. -/
theorem allCards_apply_action (L : Layout) (a : Action) (hwf : L.wf)
    (ha : validAction L a = true) :
    (apply_action L a).allCards = L.allCards := by
  obtain ⟨hne, hrow5, hlen, hres2, hc5, hcr2⟩ := hwf
  cases a with
  | swap r i j =>
      simp only [validAction, Bool.and_eq_true, decide_eq_true_eq] at ha
      obtain ⟨⟨hr, hi⟩, hj⟩ := ha
      simp only [apply_action, Layout.swap_with_opponent, Layout.allCards]
      have hinner : (↑(setRowG L.rows r
          (fun row => swapNth row i j)).flatten : Multiset Card) =
          ↑L.rows.flatten := by
        refine setRowG_flatten_multiset _ _ _ fun row hrow => ?_
        have h5 := hrow5 row (List.get?_mem hrow)
        exact swapNth_multiset row i j (by rw [h5]; exact hi)
          (by rw [h5]; exact hj)
      have houter : (↑(setRowG (setRowG L.rows r (fun row => swapNth row i j))
          L.opponent_row_index (fun row => swapNth row i j)).flatten :
            Multiset Card) =
          ↑(setRowG L.rows r (fun row => swapNth row i j)).flatten := by
        refine setRowG_flatten_multiset _ _ _ fun row hrow => ?_
        have hmem := List.get?_mem hrow
        have h5 : row.length = 5 := by
          rcases mem_setRowG hmem with hm | ⟨orig, horig, rfl⟩
          · exact hrow5 _ hm
          · rw [swapNth_length]
            exact hrow5 _ horig
        exact swapNth_multiset row i j (by rw [h5]; exact hi)
          (by rw [h5]; exact hj)
      rw [houter, hinner]
  | row_right r =>
      simp only [validAction, decide_eq_true_eq] at ha
      obtain ⟨row, hrowget, hrowmem⟩ := exists_get?_of_lt L.rows ha
      have hr2 : r < L.row_reserves.length := by rw [hlen]; exact ha
      obtain ⟨res, hresget, hresmem⟩ := exists_get?_of_lt L.row_reserves hr2
      obtain ⟨a0, a1, a2, a3, a4, rfl⟩ := len5_destruct row (hrow5 row hrowmem)
      obtain ⟨t, b, rfl⟩ := len2_destruct res (hres2 res hresmem)
      simp only [apply_action, Layout.shift_row_right, hrowget, hresget,
        Layout.allCards]
      have e1 := flatten_set_multiset L.rows r [t, a0, a1, a2, a3] _ hrowget
      have e2 := flatten_set_multiset L.row_reserves r [b, a4] _ hresget
      have hperm : (↑[a0, a1, a2, a3, a4] : Multiset Card) + ↑[t, b] =
          ↑[t, a0, a1, a2, a3] + ↑[b, a4] := by
        simp only [← Multiset.cons_coe, ← Multiset.singleton_add,
          Multiset.coe_nil]
        abel
      have key : (↑(L.rows.set r [t, a0, a1, a2, a3]).flatten : Multiset Card)
          + ↑(L.row_reserves.set r [b, a4]).flatten =
          ↑L.rows.flatten + ↑L.row_reserves.flatten := by
        have hsum : (↑(L.rows.set r [t, a0, a1, a2, a3]).flatten :
              Multiset Card) + ↑(L.row_reserves.set r [b, a4]).flatten +
              ((↑[a0, a1, a2, a3, a4] : Multiset Card) + ↑[t, b]) =
            ↑L.rows.flatten + ↑L.row_reserves.flatten +
              ((↑[a0, a1, a2, a3, a4] : Multiset Card) + ↑[t, b]) := by
          calc (↑(L.rows.set r [t, a0, a1, a2, a3]).flatten : Multiset Card)
                + ↑(L.row_reserves.set r [b, a4]).flatten
                + ((↑[a0, a1, a2, a3, a4] : Multiset Card) + ↑[t, b])
              = ((↑(L.rows.set r [t, a0, a1, a2, a3]).flatten : Multiset Card)
                  + ↑[a0, a1, a2, a3, a4]) +
                ((↑(L.row_reserves.set r [b, a4]).flatten : Multiset Card)
                  + ↑[t, b]) := by abel
            _ = (↑L.rows.flatten + ↑[t, a0, a1, a2, a3]) +
                (↑L.row_reserves.flatten + ↑[b, a4]) := by rw [e1, e2]
            _ = ↑L.rows.flatten + ↑L.row_reserves.flatten +
                ((↑[t, a0, a1, a2, a3] : Multiset Card) + ↑[b, a4]) := by abel
            _ = ↑L.rows.flatten + ↑L.row_reserves.flatten +
                ((↑[a0, a1, a2, a3, a4] : Multiset Card) + ↑[t, b]) := by
              rw [hperm]
        exact add_right_cancel hsum
      calc (↑(L.rows.set r [t, a0, a1, a2, a3]).flatten : Multiset Card) +
            ↑(L.row_reserves.set r [b, a4]).flatten + ↑L.col_reserves.flatten
          = (↑(L.rows.set r [t, a0, a1, a2, a3]).flatten : Multiset Card) +
            ↑(L.row_reserves.set r [b, a4]).flatten +
            ↑L.col_reserves.flatten := rfl
        _ = ↑L.rows.flatten + ↑L.row_reserves.flatten +
            ↑L.col_reserves.flatten := by rw [key]
  | row_left r =>
      simp only [validAction, decide_eq_true_eq] at ha
      obtain ⟨row, hrowget, hrowmem⟩ := exists_get?_of_lt L.rows ha
      have hr2 : r < L.row_reserves.length := by rw [hlen]; exact ha
      obtain ⟨res, hresget, hresmem⟩ := exists_get?_of_lt L.row_reserves hr2
      obtain ⟨a0, a1, a2, a3, a4, rfl⟩ := len5_destruct row (hrow5 row hrowmem)
      obtain ⟨t, b, rfl⟩ := len2_destruct res (hres2 res hresmem)
      simp only [apply_action, Layout.shift_row_left, hrowget, hresget,
        Layout.allCards]
      have e1 := flatten_set_multiset L.rows r [a1, a2, a3, a4, b] _ hrowget
      have e2 := flatten_set_multiset L.row_reserves r [a0, t] _ hresget
      have hperm : (↑[a0, a1, a2, a3, a4] : Multiset Card) + ↑[t, b] =
          ↑[a1, a2, a3, a4, b] + ↑[a0, t] := by
        simp only [← Multiset.cons_coe, ← Multiset.singleton_add,
          Multiset.coe_nil]
        abel
      have key : (↑(L.rows.set r [a1, a2, a3, a4, b]).flatten : Multiset Card)
          + ↑(L.row_reserves.set r [a0, t]).flatten =
          ↑L.rows.flatten + ↑L.row_reserves.flatten := by
        have hsum : (↑(L.rows.set r [a1, a2, a3, a4, b]).flatten :
              Multiset Card) + ↑(L.row_reserves.set r [a0, t]).flatten +
              ((↑[a0, a1, a2, a3, a4] : Multiset Card) + ↑[t, b]) =
            ↑L.rows.flatten + ↑L.row_reserves.flatten +
              ((↑[a0, a1, a2, a3, a4] : Multiset Card) + ↑[t, b]) := by
          calc (↑(L.rows.set r [a1, a2, a3, a4, b]).flatten : Multiset Card)
                + ↑(L.row_reserves.set r [a0, t]).flatten
                + ((↑[a0, a1, a2, a3, a4] : Multiset Card) + ↑[t, b])
              = ((↑(L.rows.set r [a1, a2, a3, a4, b]).flatten : Multiset Card)
                  + ↑[a0, a1, a2, a3, a4]) +
                ((↑(L.row_reserves.set r [a0, t]).flatten : Multiset Card)
                  + ↑[t, b]) := by abel
            _ = (↑L.rows.flatten + ↑[a1, a2, a3, a4, b]) +
                (↑L.row_reserves.flatten + ↑[a0, t]) := by rw [e1, e2]
            _ = ↑L.rows.flatten + ↑L.row_reserves.flatten +
                ((↑[a1, a2, a3, a4, b] : Multiset Card) + ↑[a0, t]) := by abel
            _ = ↑L.rows.flatten + ↑L.row_reserves.flatten +
                ((↑[a0, a1, a2, a3, a4] : Multiset Card) + ↑[t, b]) := by
              rw [hperm]
        exact add_right_cancel hsum
      calc (↑(L.rows.set r [a1, a2, a3, a4, b]).flatten : Multiset Card) +
            ↑(L.row_reserves.set r [a0, t]).flatten + ↑L.col_reserves.flatten
          = ↑L.rows.flatten + ↑L.row_reserves.flatten +
            ↑L.col_reserves.flatten := by rw [key]
  | col_down c =>
      simp only [validAction, decide_eq_true_eq] at ha
      have hclen : c < L.col_reserves.length := by rw [hc5]; exact ha
      obtain ⟨cres, hcres, hcresmem⟩ := exists_get?_of_lt L.col_reserves hclen
      obtain ⟨t, b, rfl⟩ := len2_destruct cres (hcr2 cres hcresmem)
      obtain ⟨lastRow, hlast⟩ :=
        Option.ne_none_iff_exists'.mp (mt List.getLast?_eq_none_iff.mp hne)
      have hcrow : ∀ row ∈ L.rows, c < row.length := fun row hr => by
        rw [hrow5 row hr]; exact ha
      have hcollen : (getColumn L.rows c).length = L.rows.length :=
        List.length_map _ _
      have hcolne : getColumn L.rows c ≠ [] := by
        rw [← List.length_pos, hcollen, List.length_pos]
        exact hne
      have hbtm : lastRow.getD c dummyCard =
          (getColumn L.rows c).getLast hcolne := by
        have hh : (getColumn L.rows c).getLast? =
            some (lastRow.getD c dummyCard) := by
          rw [getColumn, List.getLast?_map, hlast]
          rfl
        rw [List.getLast?_eq_getLast _ hcolne] at hh
        exact (Option.some.inj hh).symm
      simp only [apply_action, Layout.shift_col_down, hcres, hlast,
        Layout.allCards]
      have hnewlen : L.rows.length =
          (t :: (getColumn L.rows c).dropLast).length := by
        simp only [List.length_cons, List.length_dropLast, hcollen]
        have := List.length_pos.mpr hne
        omega
      have e1 := setColumn_flatten_multiset c L.rows
        (t :: (getColumn L.rows c).dropLast) hnewlen hcrow
      have e2 := flatten_set_multiset L.col_reserves c
        [b, lastRow.getD c dummyCard] _ hcres
      have hsplit : (↑(getColumn L.rows c) : Multiset Card) =
          ↑(getColumn L.rows c).dropLast +
            {(getColumn L.rows c).getLast hcolne} := by
        conv in (↑(getColumn L.rows c) : Multiset Card) =>
          rw [← List.dropLast_append_getLast hcolne]
        rw [← Multiset.coe_add]
        simp only [← Multiset.cons_coe, ← Multiset.singleton_add,
          Multiset.coe_nil]
        abel
      have hperm : (↑(getColumn L.rows c) : Multiset Card) + ↑[t, b] =
          ↑(t :: (getColumn L.rows c).dropLast) +
            ↑[b, lastRow.getD c dummyCard] := by
        rw [hsplit, hbtm]
        simp only [← Multiset.cons_coe, ← Multiset.singleton_add,
          Multiset.coe_nil]
        abel
      have key : (↑(setColumn L.rows c
            (t :: (getColumn L.rows c).dropLast)).flatten : Multiset Card) +
          ↑(L.col_reserves.set c [b, lastRow.getD c dummyCard]).flatten =
          ↑L.rows.flatten + ↑L.col_reserves.flatten := by
        have hsum : (↑(setColumn L.rows c
              (t :: (getColumn L.rows c).dropLast)).flatten : Multiset Card) +
            ↑(L.col_reserves.set c [b, lastRow.getD c dummyCard]).flatten +
            ((↑(getColumn L.rows c) : Multiset Card) + ↑[t, b]) =
            ↑L.rows.flatten + ↑L.col_reserves.flatten +
            ((↑(getColumn L.rows c) : Multiset Card) + ↑[t, b]) := by
          calc (↑(setColumn L.rows c
                (t :: (getColumn L.rows c).dropLast)).flatten : Multiset Card)
                + ↑(L.col_reserves.set c
                    [b, lastRow.getD c dummyCard]).flatten
                + ((↑(getColumn L.rows c) : Multiset Card) + ↑[t, b])
              = ((↑(setColumn L.rows c
                  (t :: (getColumn L.rows c).dropLast)).flatten :
                    Multiset Card) + ↑(getColumn L.rows c)) +
                ((↑(L.col_reserves.set c
                    [b, lastRow.getD c dummyCard]).flatten : Multiset Card)
                  + ↑[t, b]) := by abel
            _ = (↑L.rows.flatten + ↑(t :: (getColumn L.rows c).dropLast)) +
                (↑L.col_reserves.flatten +
                  ↑[b, lastRow.getD c dummyCard]) := by rw [e1, e2]
            _ = ↑L.rows.flatten + ↑L.col_reserves.flatten +
                ((↑(t :: (getColumn L.rows c).dropLast) : Multiset Card) +
                  ↑[b, lastRow.getD c dummyCard]) := by abel
            _ = ↑L.rows.flatten + ↑L.col_reserves.flatten +
                ((↑(getColumn L.rows c) : Multiset Card) + ↑[t, b]) := by
              rw [hperm]
        exact add_right_cancel hsum
      calc (↑(setColumn L.rows c
            (t :: (getColumn L.rows c).dropLast)).flatten : Multiset Card) +
            ↑L.row_reserves.flatten +
            ↑(L.col_reserves.set c [b, lastRow.getD c dummyCard]).flatten
          = (↑(setColumn L.rows c
              (t :: (getColumn L.rows c).dropLast)).flatten : Multiset Card) +
            ↑(L.col_reserves.set c [b, lastRow.getD c dummyCard]).flatten +
            ↑L.row_reserves.flatten := by abel
        _ = ↑L.rows.flatten + ↑L.col_reserves.flatten +
            ↑L.row_reserves.flatten := by rw [key]
        _ = ↑L.rows.flatten + ↑L.row_reserves.flatten +
            ↑L.col_reserves.flatten := by abel
  | col_up c =>
      simp only [validAction, decide_eq_true_eq] at ha
      have hclen : c < L.col_reserves.length := by rw [hc5]; exact ha
      obtain ⟨cres, hcres, hcresmem⟩ := exists_get?_of_lt L.col_reserves hclen
      obtain ⟨t, b, rfl⟩ := len2_destruct cres (hcr2 cres hcresmem)
      obtain ⟨firstRow, hfirst⟩ :=
        Option.ne_none_iff_exists'.mp (mt List.head?_eq_none_iff.mp hne)
      have hcrow : ∀ row ∈ L.rows, c < row.length := fun row hr => by
        rw [hrow5 row hr]; exact ha
      have hcollen : (getColumn L.rows c).length = L.rows.length :=
        List.length_map _ _
      have hcolne : getColumn L.rows c ≠ [] := by
        rw [← List.length_pos, hcollen, List.length_pos]
        exact hne
      have htop : firstRow.getD c dummyCard =
          (getColumn L.rows c).head hcolne := by
        have hh : (getColumn L.rows c).head? =
            some (firstRow.getD c dummyCard) := by
          rw [getColumn, List.head?_map, hfirst]
          rfl
        rw [List.head?_eq_head hcolne] at hh
        exact (Option.some.inj hh).symm
      simp only [apply_action, Layout.shift_col_up, hcres, hfirst,
        Layout.allCards]
      have hnewlen : L.rows.length =
          ((getColumn L.rows c).tail ++ [b]).length := by
        simp only [List.length_append, List.length_tail, hcollen,
          List.length_cons, List.length_nil]
        have := List.length_pos.mpr hne
        omega
      have e1 := setColumn_flatten_multiset c L.rows
        ((getColumn L.rows c).tail ++ [b]) hnewlen hcrow
      have e2 := flatten_set_multiset L.col_reserves c
        [firstRow.getD c dummyCard, t] _ hcres
      have hsplit : (↑(getColumn L.rows c) : Multiset Card) =
          {(getColumn L.rows c).head hcolne} + ↑(getColumn L.rows c).tail := by
        conv in (↑(getColumn L.rows c) : Multiset Card) =>
          rw [← List.head_cons_tail _ hcolne]
        simp only [← Multiset.cons_coe, ← Multiset.singleton_add]
      have hperm : (↑(getColumn L.rows c) : Multiset Card) + ↑[t, b] =
          ↑((getColumn L.rows c).tail ++ [b]) +
            ↑[firstRow.getD c dummyCard, t] := by
        rw [hsplit, htop, ← Multiset.coe_add]
        simp only [← Multiset.cons_coe, ← Multiset.singleton_add,
          Multiset.coe_nil]
        abel
      have key : (↑(setColumn L.rows c
            ((getColumn L.rows c).tail ++ [b])).flatten : Multiset Card) +
          ↑(L.col_reserves.set c [firstRow.getD c dummyCard, t]).flatten =
          ↑L.rows.flatten + ↑L.col_reserves.flatten := by
        have hsum : (↑(setColumn L.rows c
              ((getColumn L.rows c).tail ++ [b])).flatten : Multiset Card) +
            ↑(L.col_reserves.set c [firstRow.getD c dummyCard, t]).flatten +
            ((↑(getColumn L.rows c) : Multiset Card) + ↑[t, b]) =
            ↑L.rows.flatten + ↑L.col_reserves.flatten +
            ((↑(getColumn L.rows c) : Multiset Card) + ↑[t, b]) := by
          calc (↑(setColumn L.rows c
                ((getColumn L.rows c).tail ++ [b])).flatten : Multiset Card)
                + ↑(L.col_reserves.set c
                    [firstRow.getD c dummyCard, t]).flatten
                + ((↑(getColumn L.rows c) : Multiset Card) + ↑[t, b])
              = ((↑(setColumn L.rows c
                  ((getColumn L.rows c).tail ++ [b])).flatten :
                    Multiset Card) + ↑(getColumn L.rows c)) +
                ((↑(L.col_reserves.set c
                    [firstRow.getD c dummyCard, t]).flatten : Multiset Card)
                  + ↑[t, b]) := by abel
            _ = (↑L.rows.flatten + ↑((getColumn L.rows c).tail ++ [b])) +
                (↑L.col_reserves.flatten +
                  ↑[firstRow.getD c dummyCard, t]) := by rw [e1, e2]
            _ = ↑L.rows.flatten + ↑L.col_reserves.flatten +
                ((↑((getColumn L.rows c).tail ++ [b]) : Multiset Card) +
                  ↑[firstRow.getD c dummyCard, t]) := by abel
            _ = ↑L.rows.flatten + ↑L.col_reserves.flatten +
                ((↑(getColumn L.rows c) : Multiset Card) + ↑[t, b]) := by
              rw [hperm]
        exact add_right_cancel hsum
      calc (↑(setColumn L.rows c
            ((getColumn L.rows c).tail ++ [b])).flatten : Multiset Card) +
            ↑L.row_reserves.flatten +
            ↑(L.col_reserves.set c [firstRow.getD c dummyCard, t]).flatten
          = (↑(setColumn L.rows c
              ((getColumn L.rows c).tail ++ [b])).flatten : Multiset Card) +
            ↑(L.col_reserves.set c [firstRow.getD c dummyCard, t]).flatten +
            ↑L.row_reserves.flatten := by abel
        _ = ↑L.rows.flatten + ↑L.col_reserves.flatten +
            ↑L.row_reserves.flatten := by rw [key]
        _ = ↑L.rows.flatten + ↑L.row_reserves.flatten +
            ↑L.col_reserves.flatten := by abel

/-- Index validity only depends on the number of rows. -/
theorem validAction_congr {L1 L2 : Layout}
    (h : L1.rows.length = L2.rows.length) (a : Action) :
    validAction L1 a = validAction L2 a := by
  cases a <;> simp [validAction, h]

/-- C3: any finite sequence of valid actions leaves the multiset of card
codes over grid cells, row reserves and column reserves unchanged - nothing
is duplicated, dropped or replaced, only positions move. -/
theorem card_conservation (L : Layout) (acts : List Action) (hwf : L.wf)
    (hacts : ∀ a ∈ acts, validAction L a = true) :
    (acts.foldl apply_action L).allCards = L.allCards := by
  induction acts generalizing L with
  | nil => rfl
  | cons a rest ih =>
      have hva := hacts a (List.mem_cons_self _ _)
      have hrest : ∀ b ∈ rest, validAction (apply_action L a) b = true := by
        intro b hb
        rw [validAction_congr (apply_action_rows_length L a) b]
        exact hacts b (List.mem_cons_of_mem _ hb)
      simp only [List.foldl_cons]
      rw [ih (apply_action L a) (apply_action_wf L a hwf) hrest,
        allCards_apply_action L a hwf hva]

/-- Witness for C3 on a concrete layout and concrete action sequence. -/
theorem card_conservation_witness :
    (∀ a ∈ sampleActs, validAction sampleLayout a = true) ∧
    (sampleActs.foldl apply_action sampleLayout).allCards =
      sampleLayout.allCards :=
  ⟨by decide,
   card_conservation sampleLayout sampleActs (by decide) (by decide)⟩

/-- Fisher-Yates preserves length. -/
theorem shuffleGo_length (n : Nat) :
    ∀ (l : List α) (rng : Rng), (shuffleGo l rng n).1.length = l.length := by
  induction n with
  | zero => intro l rng; rfl
  | succ k ih =>
      intro l rng
      simp only [shuffleGo]
      rw [ih, swapNth_length]

/-- `rng.shuffle` preserves length. -/
theorem shuffle_length (rng : Rng) (l : List α) :
    (rng.shuffle l).1.length = l.length :=
  shuffleGo_length _ l rng

/-- The standard deck has 52 cards. -/
theorem standard_deck_length : standard_deck.length = 52 := rfl

/-- C4 (amended): when the configured shape needs more cards than the deck
has - exactly the situation in which the reserve pool is smaller than
`rows*2 + 5*2` after taking `rows*5` grid cards, since the deck always has 52
cards - `build_solved_layout` raises the distinct not-enough-cards error on
its first attempt instead of burning attempts until the budget-exhausted
error. -/
theorem build_reserve_shortage_error (players max_attempts : Nat) (rng : Rng)
    (hpos : 0 < max_attempts)
    (hshort : 52 < (players + 1) * 5 + required_reserve_count (players + 1) 5) :
    build_solved_layout players rng max_attempts =
      .error "Not enough cards to build layout" := by
  obtain ⟨n, rfl⟩ : ∃ n, max_attempts = n + 1 := ⟨max_attempts - 1, by omega⟩
  rcases hd : draw_deck rng with ⟨deck, rng1⟩
  have hdlen : deck.length = 52 := by
    have h1 := congrArg Prod.fst hd
    dsimp only at h1
    rw [← h1, draw_deck, shuffle_length, standard_deck_length]
  have hba : build_attempt players rng =
      (.error "Not enough cards to build layout", rng1) := by
    unfold build_attempt
    rw [hd]
    dsimp only
    rw [if_pos (by rw [hdlen]; exact hshort)]
  show build_loop players (n + 1) rng = _
  rw [build_loop, hba]
  rfl

/-- Witness for the amended C4 at a concrete player count and stream. -/
theorem build_reserve_shortage_error_witness :
    0 < 2000 ∧
    52 < (6 + 1) * 5 + required_reserve_count (6 + 1) 5 ∧
    build_solved_layout 6 rngZero 2000 =
      .error "Not enough cards to build layout" :=
  ⟨by decide, by decide,
   build_reserve_shortage_error 6 2000 rngZero (by decide) (by decide)⟩

/-- C4 counterexample: at 6 players every shuffled deck leaves a too-small
reserve pool, and the constructor aborts with the not-enough-cards error on
the spot - it does not keep discarding attempts, and the error is not the
budget-exhausted "construction failed" report the claim predicts. -/
theorem build_not_enough_cards_aborts :
    build_solved_layout 6 rngZero 2000 =
      .error "Not enough cards to build layout" ∧
    "Not enough cards to build layout" ≠
      "Failed to build solved layout within attempts" := by
  constructor
  · rfl
  · decide

/-- The smoothing-and-clamp tail of `select_ranked_level` stays within
`clamp_delta_per_game` of the previous level whenever that previous level is
itself inside `[min_level, max_level]`. -/
theorem smooth_clamp_within (cfg : RankedDifficultyConfig) (last target : ℤ)
    (hmin : cfg.min_level ≤ last) (hmax : last ≤ cfg.max_level)
    (hdelta : 0 ≤ cfg.clamp_delta_per_game) :
    |smooth_clamp cfg (some last) target - last| ≤
      cfg.clamp_delta_per_game := by
  rw [abs_le]
  unfold smooth_clamp
  dsimp only
  constructor
  · split
    · omega
    · split <;> omega
  · split
    · omega
    · split <;> omega

/-- The final clamp keeps `smooth_clamp` inside `[min_level, max_level]`. -/
theorem smooth_clamp_bounds (cfg : RankedDifficultyConfig)
    (last? : Option ℤ) (target : ℤ) (h : cfg.min_level ≤ cfg.max_level) :
    cfg.min_level ≤ smooth_clamp cfg last? target ∧
    smooth_clamp cfg last? target ≤ cfg.max_level := by
  unfold smooth_clamp
  exact ⟨le_max_left _ _, max_le h (min_le_left _ _)⟩

/-- C5 (amended): whenever the previous ranked game exists and its level lies
inside `[min_level, max_level]`, and `clamp_delta_per_game` is non-negative,
the selected level differs from the previous level by at most
`clamp_delta_per_game`.  (The unrestricted claim fails: the final range clamp
runs after the smoothing step and can jump further.) -/
theorem difficulty_clamped (recent : List GameResult) (user_elo : ℚ)
    (cfg : RankedDifficultyConfig) (last : GameResult)
    (hlast : recent.getLast? = some last)
    (hmin : cfg.min_level ≤ last.level) (hmax : last.level ≤ cfg.max_level)
    (hdelta : 0 ≤ cfg.clamp_delta_per_game) :
    |select_ranked_level recent user_elo cfg - last.level| ≤
      cfg.clamp_delta_per_game := by
  unfold select_ranked_level
  rw [hlast]
  exact smooth_clamp_within cfg last.level _ hmin hmax hdelta

/-- Witness for the amended C5 with the default config and a level-10 game. -/
theorem difficulty_clamped_witness :
    c5results.getLast? = some ("2024-01-01T00:00:00", 1, 10, none) ∧
    |select_ranked_level c5results 1000 ({} : RankedDifficultyConfig) -
      (10 : ℤ)| ≤ ({} : RankedDifficultyConfig).clamp_delta_per_game :=
  ⟨rfl, difficulty_clamped c5results 1000 {} ("2024-01-01T00:00:00", 1, 10, none)
    rfl (by decide) (by decide) (by decide)⟩

/-- C5 counterexample: with the default config except `max_level := 5`, a
single won game at level 10 and rating 1000 make `select_ranked_level` return
5, which is 5 levels away from the previous game's level 10 although
`clamp_delta_per_game` is 2. -/
theorem difficulty_clamp_violated :
    ¬ (|select_ranked_level c5results 1000 c5cfg - 10| ≤
        c5cfg.clamp_delta_per_game) := by
  have h5 : select_ranked_level c5results 1000 c5cfg = 5 := by
    unfold select_ranked_level
    norm_num [c5results, c5cfg, GameResult.solved, GameResult.level,
      pyRound, smooth_clamp]
  rw [h5]
  norm_num [c5cfg]

/-- C6: for any history (also empty), any rating and any config with
`min_level ≤ max_level`, the selected level lies in
`[min_level, max_level]`; the selector is total and yields an integer. -/
theorem level_bounds (recent : List GameResult) (user_elo : ℚ)
    (cfg : RankedDifficultyConfig) (h : cfg.min_level ≤ cfg.max_level) :
    cfg.min_level ≤ select_ranked_level recent user_elo cfg ∧
    select_ranked_level recent user_elo cfg ≤ cfg.max_level := by
  unfold select_ranked_level
  exact smooth_clamp_bounds cfg _ _ h

/-- Witness for C6 on an empty history with the default config. -/
theorem level_bounds_witness :
    ({} : RankedDifficultyConfig).min_level ≤
      select_ranked_level [] 1200 ({} : RankedDifficultyConfig) ∧
    select_ranked_level [] 1200 ({} : RankedDifficultyConfig) ≤
      ({} : RankedDifficultyConfig).max_level :=
  level_bounds [] 1200 {} (by decide)

/-- C7 (amended): `compute_user_elo` is exactly the chronological left fold
described by the specification - update
`rating + k_factor * weight * (actual - expected)` with the logistic expected
score and recency weight - with the one guard the claim omits: a non-positive
configured half-life forces weight 1, as does an unparseable timestamp. -/
theorem elo_fold_spec (pow : ℚ → ℚ → ℚ) (parse : String → Option ℚ)
    (now : ℚ) (results : List GameResult) (cfg : EloConfig) :
    compute_user_elo pow parse now results cfg =
      elo_amended_fold pow parse now results cfg := rfl

/-- C7 counterexample: with a negative configured half-life, the code weights
a parseable game by exactly 1, while the claimed formula
`0.5 ^ (age / halflife)` would double the weight; the resulting ratings
differ (1216 versus 1232) on a one-game history. -/
theorem elo_claimed_fold_refuted :
    compute_user_elo c7pow c7parse 86400 c7results c7cfg ≠
      elo_claimed_fold c7pow c7parse 86400 c7results c7cfg := by
  have h1 : compute_user_elo c7pow c7parse 86400 c7results c7cfg = 1216 := by
    unfold compute_user_elo expected_score game_weight
      opponent_rating_from_level
    norm_num [c7pow, c7parse, c7cfg, c7results, GameResult.solved,
      GameResult.level, GameResult.created_at]
  have h2 : elo_claimed_fold c7pow c7parse 86400 c7results c7cfg = 1232 := by
    unfold elo_claimed_fold
    norm_num [c7pow, c7parse, c7cfg, c7results, GameResult.solved,
      GameResult.level, GameResult.created_at]
  rw [h1, h2]
  norm_num

/-- Length of the renumbered row list. -/
theorem reorder_rows_length (n opp : Nat) (l : List α) (d : α) :
    (reorder_rows n opp l d).length =
      1 + ((List.range n).filter fun i => i != opp).length := by
  simp [reorder_rows]
  omega

/-- Removing one present index from `range n` leaves `n - 1` indices. -/
theorem filter_ne_range_length (n a : Nat) (h : a < n) :
    ((List.range n).filter fun i => i != a).length = n - 1 := by
  induction n with
  | zero => exact absurd h (Nat.not_lt_zero a)
  | succ m ih =>
      rw [List.range_succ, List.filter_append]
      by_cases ham : a = m
      · subst ham
        have h1 : (List.range a).filter (fun i => i != a) = List.range a :=
          List.filter_eq_self.mpr fun x hx => by
            simp only [bne_iff_ne, ne_eq, decide_eq_true_eq]
            exact Nat.ne_of_lt (List.mem_range.mp hx)
        simp [h1]
      · have ham2 : a < m := by
          rcases Nat.lt_succ_iff_lt_or_eq.mp h with h2 | h2
          · exact h2
          · exact absurd h2 ham
        have hm : ((m != a) : Bool) = true := by
          simp only [bne_iff_ne, ne_eq, decide_eq_true_eq]
          omega
        simp only [List.length_append, List.filter_cons, hm, if_true,
          List.filter_nil, List.length_cons, List.length_nil]
        rw [ih ham2]
        omega

/-- The Layout assembled by `finish_attempt` has opponent row 0 and keeps
`num_rows` rows whenever the pre-normalisation opponent index is in range. -/
theorem finish_attempt_spec (rows rr cr : List (List Card))
    (opp suit col n : Nat) (h : opp < n) :
    (finish_attempt rows rr cr opp suit col n).1.opponent_row_index = 0 ∧
    (finish_attempt rows rr cr opp suit col n).1.rows.length = n := by
  refine ⟨rfl, ?_⟩
  show (reorder_rows n opp rows []).length = n
  rw [reorder_rows_length, filter_ne_range_length n opp h]
  omega

/-- A successful `build_attempt_tail` delivers a `finish_attempt` Layout:
opponent row 0, and `players + 1` rows for in-range opponent indices. -/
theorem build_attempt_tail_ok (players : Nat) (rng5 : Rng)
    (reserve_pool remaining_grid : List Card)
    (rows3 : List (List (Option Card))) (opp suit col : Nat) (L : Layout)
    (m : BuildMeta) (rngF : Rng)
    (h : build_attempt_tail players rng5 reserve_pool remaining_grid rows3
      opp suit col = (.ok (some (L, m)), rngF)) :
    L.opponent_row_index = 0 ∧ (opp < players + 1 →
      L.rows.length = players + 1) := by
  unfold build_attempt_tail at h
  dsimp only at h
  split at h
  · simp at h
  · rename_i filled leftover hfill
    split at h
    · simp at h
    · split at h
      · simp at h
      · rename_i rrs pool2 hap1
        split at h
        · simp at h
        · rename_i crs pool3 hap2
          simp only [Prod.mk.injEq, Except.ok.injEq,
            Option.some.injEq] at h
          obtain ⟨hLm, -⟩ := h
          have hL : L = (finish_attempt filled rrs crs opp suit col
              (players + 1)).1 := by
            rw [hLm]
          refine ⟨?_, fun hopp => ?_⟩
          · rw [hL]
            rfl
          · rw [hL]
            exact (finish_attempt_spec filled rrs crs opp suit col
              (players + 1) hopp).2

/-- A successful `build_attempt_mid` delivers a Layout with opponent row 0,
and `players + 1` rows when the opponent index is in range. -/
theorem build_attempt_mid_ok (players : Nat) (rng4 : Rng)
    (reserve_pool remaining_grid opp_row_cards suit_row_cards : List Card)
    (opp : Nat) (chosen : Option (List Card × Nat)) (L : Layout)
    (m : BuildMeta) (rngF : Rng)
    (h : build_attempt_mid players rng4 reserve_pool remaining_grid
      opp_row_cards suit_row_cards opp chosen = (.ok (some (L, m)), rngF)) :
    L.opponent_row_index = 0 ∧ (opp < players + 1 →
      L.rows.length = players + 1) := by
  unfold build_attempt_mid at h
  dsimp only at h
  split at h
  · simp at h
  · rename_i seq sidx
    split at h
    · simp at h
    · split at h
      · split at h
        · simp at h
        · exact build_attempt_tail_ok _ _ _ _ _ _ _ _ _ _ _ h
      · exact build_attempt_tail_ok _ _ _ _ _ _ _ _ _ _ _ h

/-- A successful `build_attempt` returns a Layout with opponent row 0 and
`players + 1` rows. -/
theorem build_attempt_ok (players : Nat) (rng rngF : Rng) (L : Layout)
    (m : BuildMeta)
    (h : build_attempt players rng = (.ok (some (L, m)), rngF)) :
    L.opponent_row_index = 0 ∧ L.rows.length = players + 1 := by
  unfold build_attempt at h
  dsimp only at h
  split at h
  · simp at h
  · split at h
    · simp at h
    · split at h <;>
        · obtain ⟨h0, hlen⟩ := build_attempt_mid_ok _ _ _ _ _ _ _ _ _ _ _ h
          exact ⟨h0, hlen (Nat.mod_lt _ (Nat.succ_pos players))⟩

/-- A successful `build_solved_layout` run returns a Layout with opponent
row 0 and `players + 1` rows. -/
theorem build_solved_layout_ok (players max_attempts : Nat) (rng : Rng)
    (L : Layout) (m : BuildMeta)
    (h : build_solved_layout players rng max_attempts = .ok (L, m)) :
    L.opponent_row_index = 0 ∧ L.rows.length = players + 1 := by
  rw [build_solved_layout] at h
  induction max_attempts generalizing rng with
  | zero => simp [build_loop] at h
  | succ n ih =>
      rw [build_loop] at h
      rcases hba : build_attempt players rng with ⟨res, rng1⟩
      rw [hba] at h
      match res, h with
      | .error e, h => simp [build_loop_step] at h
      | .ok none, h =>
          exact ih rng1 (by simpa [build_loop_step] using h)
      | .ok (some p), h =>
          rcases p with ⟨L1, m1⟩
          have hp : L1 = L ∧ m1 = m := by
            simpa [build_loop_step] using h
          obtain ⟨rfl, rfl⟩ := hp
          exact build_attempt_ok players rng rng1 L1 m1 hba

/-- Reading every index of a list back yields the list. -/
theorem mapRange_getD (l : List α) (d : α) :
    (List.range l.length).map (fun i => l.getD i d) = l := by
  induction l with
  | nil => rfl
  | cons x xs ih =>
      rw [show (x :: xs).length = xs.length + 1 from rfl,
        List.range_succ_eq_map]
      simp only [List.map_cons, List.getD_cons_zero, List.map_map,
        Function.comp_def, Nat.succ_eq_add_one, List.getD_cons_succ]
      rw [ih]

/-- Visiting all indices except `k` in order reads off `eraseIdx k`. -/
theorem filter_range_map_getD (l : List α) :
    ∀ (k : Nat) (d : α), k < l.length →
      ((List.range l.length).filter fun i => i != k).map
        (fun i => l.getD i d) = l.eraseIdx k := by
  induction l with
  | nil => intro k d h; simp at h
  | cons x xs ih =>
      intro k d h
      rw [show (x :: xs).length = xs.length + 1 from rfl,
        List.range_succ_eq_map]
      cases k with
      | zero =>
          have hfil : (List.filter (fun i => i != 0)
              (List.map Nat.succ (List.range xs.length))) =
              List.map Nat.succ (List.range xs.length) :=
            List.filter_eq_self.mpr fun y hy => by
              obtain ⟨z, -, rfl⟩ := List.mem_map.mp hy
              simp
          simp only [List.filter_cons, bne_self_eq_false, Bool.false_eq_true,
            if_false, hfil, List.map_map, Function.comp_def,
            Nat.succ_eq_add_one, List.getD_cons_succ, List.eraseIdx_cons_zero]
          exact mapRange_getD xs d
      | succ k2 =>
          have hk : k2 < xs.length := by simpa using h
          have hhead : ((0 : Nat) != (k2 + 1)) = true := by simp
          have hfil : (List.filter (fun i => i != (k2 + 1))
              (List.map Nat.succ (List.range xs.length))) =
              List.map Nat.succ
                ((List.range xs.length).filter fun i => i != k2) := by
            rw [List.filter_map]
            congr 1
            apply List.filter_congr
            intro y hy
            simp [Function.comp]
          simp only [List.filter_cons, hhead, if_true, List.map_cons,
            List.getD_cons_zero, hfil, List.map_map, Function.comp_def,
            Nat.succ_eq_add_one, List.getD_cons_succ,
            List.eraseIdx_cons_succ]
          rw [ih k2 d hk]

/-- The source's renumbering puts the opponent row first and then the other
rows in their original relative order. -/
theorem reorder_rows_eq (l : List α) (opp : Nat) (d : α)
    (h : opp < l.length) :
    reorder_rows l.length opp l d = l.getD opp d :: l.eraseIdx opp := by
  unfold reorder_rows
  simp only [List.map_cons]
  congr 1
  exact filter_range_map_getD l opp d h

/-- Position of a present element in `range m`. -/
theorem findIdx?_range_self (m s : Nat) (h : s < m) :
    (List.range m).findIdx? (fun x => x == s) = some s := by
  induction m with
  | zero => exact absurd h (Nat.not_lt_zero s)
  | succ k ih =>
      rw [List.range_succ, List.findIdx?_append]
      by_cases hsk : s < k
      · rw [ih hsk]
        rfl
      · have hsk2 : s = k := by omega
        subst hsk2
        have hnone : (List.range s).findIdx? (fun x => x == s) = none :=
          List.findIdx?_eq_none_iff.mpr fun x hx => by
            simp only [beq_eq_false_iff_ne, ne_eq]
            exact Nat.ne_of_lt (List.mem_range.mp hx)
        rw [hnone]
        simp [List.findIdx?_cons]

/-- Position of a present element in `range' s0 k`. -/
theorem findIdx?_range'_self (k : Nat) :
    ∀ (s0 x : Nat), s0 ≤ x → x < s0 + k →
      (List.range' s0 k).findIdx? (fun y => y == x) = some (x - s0) := by
  induction k with
  | zero => intro s0 x h1 h2; omega
  | succ k2 ih =>
      intro s0 x h1 h2
      rw [List.range'_succ, List.findIdx?_cons]
      by_cases hx : s0 = x
      · subst hx
        simp
      · have hs0x : s0 < x := by omega
        have hfalse : ((s0 == x) : Bool) = false := by
          simp only [beq_eq_false_iff_ne, ne_eq]
          exact hx
        rw [hfalse]
        simp only [Bool.false_eq_true, if_false, List.findIdx?_succ]
        rw [ih (s0 + 1) x (by omega) (by omega)]
        simp only [Option.map_some']
        congr 1
        omega

/-- Splitting `range n` around one removed index. -/
theorem filter_ne_range_split (n a : Nat) (h : a < n) :
    (List.range n).filter (fun i => i != a) =
      List.range a ++ List.range' (a + 1) (n - (a + 1)) := by
  induction n with
  | zero => exact absurd h (Nat.not_lt_zero a)
  | succ m ih =>
      rw [List.range_succ, List.filter_append]
      by_cases ham : a = m
      · subst ham
        have h1 : (List.range a).filter (fun i => i != a) = List.range a :=
          List.filter_eq_self.mpr fun x hx => by
            simp only [bne_iff_ne, ne_eq, decide_eq_true_eq]
            exact Nat.ne_of_lt (List.mem_range.mp hx)
        simp [h1]
      · have ham2 : a < m := by omega
        rw [ih ham2]
        have hm : ((m != a) : Bool) = true := by
          simp only [bne_iff_ne, ne_eq, decide_eq_true_eq]
          omega
        simp only [List.filter_cons, hm, if_true, List.filter_nil,
          List.append_assoc]
        congr 1
        have hcount : m - (a + 1) + 1 = m + 1 - (a + 1) := by omega
        rw [← hcount, List.range'_concat]
        congr 2
        omega

/-- The remapping of the suite-row index under the renumbering: the opponent
index goes to 0, smaller indices shift up by one, larger ones stay put. -/
theorem remap_index_eq (n opp s : Nat) (hopp : opp < n) (hs : s < n) :
    remap_index n opp s =
      (if s = opp then 0 else if s < opp then s + 1 else s) := by
  unfold remap_index
  dsimp only
  by_cases hso : s = opp
  · subst hso
    rw [List.findIdx?_cons]
    simp
  · have hhead : ((opp == s) : Bool) = false := by
      simp only [beq_eq_false_iff_ne, ne_eq]
      exact fun hc => hso hc.symm
    rw [List.findIdx?_cons, hhead]
    simp only [Bool.false_eq_true, if_false, List.findIdx?_succ]
    rw [filter_ne_range_split n opp hopp, List.findIdx?_append]
    by_cases hlt : s < opp
    · rw [findIdx?_range_self opp s hlt]
      simp only [Option.or, Option.map_some']
      rw [if_neg hso, if_pos hlt]
    · have hgt : opp < s := by omega
      have hnone : (List.range opp).findIdx? (fun x => x == s) = none :=
        List.findIdx?_eq_none_iff.mpr fun x hx => by
          simp only [beq_eq_false_iff_ne, ne_eq]
          have := List.mem_range.mp hx
          omega
      rw [hnone, findIdx?_range'_self (n - (opp + 1)) (opp + 1) s
        (by omega) (by omega)]
      simp only [Option.or, Option.map_some', List.length_range]
      rw [if_neg hso, if_neg hlt]
      omega

/-- C8: every Layout returned by the constructor has `opponent_row_index`
equal to 0; the renumbering applied on the way out places the opponent row
first (reserves permuted by the same renumbering) followed by the remaining
rows in their original relative order, and the suite-row index is remapped
accordingly (the opponent index to 0, smaller indices up by one, larger ones
unchanged). -/
theorem opponent_row_normalized (players max_attempts : Nat) (rng : Rng)
    (L : Layout) (m : BuildMeta) (l : List (List Card)) (d : List Card)
    (opp s : Nat)
    (hok : build_solved_layout players rng max_attempts = .ok (L, m))
    (hopp : opp < l.length) (hs : s < l.length) :
    L.opponent_row_index = 0 ∧
    reorder_rows l.length opp l d = l.getD opp d :: l.eraseIdx opp ∧
    remap_index l.length opp s =
      (if s = opp then 0 else if s < opp then s + 1 else s) :=
  ⟨(build_solved_layout_ok players max_attempts rng L m hok).1,
   reorder_rows_eq l opp d hopp,
   remap_index_eq l.length opp s hopp hs⟩

/-- Witness for C8 on the concrete 3-player construction run. -/
theorem opponent_row_normalized_witness :
    layout3.opponent_row_index = 0 ∧
    reorder_rows 3 1 [[dummyCard], [], [dummyCard, dummyCard]] [] =
      [] :: [[dummyCard], [dummyCard, dummyCard]] ∧
    remap_index 3 1 2 = 2 :=
  opponent_row_normalized 3 2000 rngBuild3 layout3 meta3
    [[dummyCard], [], [dummyCard, dummyCard]] [] 1 2 rfl
    (by decide) (by decide)

/-- Actions recorded by the scramble loop are either from the accumulator or
row-safe: row-type actions avoid the opponent row and stay below the row
count (both invariant along the loop). -/
theorem scramble_loop_acts (players : Nat) (n : Nat) :
    ∀ (L : Layout) (acc : List Action) (rng : Rng) (a : Action),
      a ∈ (scramble_loop players n L acc rng).2.1 →
      a ∈ acc ∨ (a.isRowType = true →
        a.rowParam ≠ L.opponent_row_index ∧
          a.rowParam < L.rows.length) := by
  induction n with
  | zero =>
      intro L acc rng a ha
      exact .inl (by simpa [scramble_loop] using ha)
  | succ n ih =>
      intro L acc rng a ha
      rcases hra : random_legal_action L rng players with ⟨act, rng1⟩
      simp only [scramble_loop, hra] at ha
      rcases ih _ _ _ _ ha with hacc | hspec
      · rcases List.mem_append.mp hacc with hacc2 | hone
        · exact .inl hacc2
        · have hact : a = act := List.mem_singleton.mp hone
          subst hact
          exact .inr fun hrt =>
            (random_legal_action_spec L rng players a rng1 hra).2 hrt
      · refine .inr fun hrt => ?_
        have := hspec hrt
        rwa [apply_action_opponent, apply_action_rows_length] at this

/-- `inverse_action` preserves the row-type flag and the row parameter. -/
theorem inverse_action_row (a : Action) :
    (inverse_action a).isRowType = a.isRowType ∧
    (inverse_action a).rowParam = a.rowParam := by
  cases a <;> simp [inverse_action, Action.isRowType, Action.rowParam]

/-- C9 (amended): for a 3-player puzzle built by the constructor, every
row-type action in the derived solution references one of the player rows 1,
2 or 3 - never the opponent row 0.  (They need not follow the 1,2,3 cycle.) -/
theorem solution_row_actions (rngA rngB : Rng) (budget steps : Nat)
    (L : Layout) (m : BuildMeta)
    (hok : build_solved_layout 3 rngA budget = .ok (L, m)) :
    ∀ a ∈ (scramble_from_solved L steps rngB 3).2, a.isRowType = true →
      1 ≤ a.rowParam ∧ a.rowParam ≤ 3 := by
  obtain ⟨hopp, hlen⟩ := build_solved_layout_ok 3 budget rngA L m hok
  intro a ha hrt
  rcases hsl : scramble_loop 3 steps L.clone [] rngB with ⟨Lf, acts, rngf⟩
  simp only [scramble_from_solved, hsl] at ha
  obtain ⟨b, hb, rfl⟩ := List.mem_map.mp ha
  have hbacts : b ∈ acts := List.mem_reverse.mp hb
  have hspec := scramble_loop_acts 3 steps L.clone [] rngB b
    (by rw [hsl]; exact hbacts)
  rcases hspec with hfalse | hs
  · simp at hfalse
  · obtain ⟨hrow1, hrow2⟩ := inverse_action_row b
    obtain ⟨hne, hlt⟩ := hs (by rw [← hrow1]; exact hrt)
    rw [Layout.clone] at hne hlt
    rw [hopp] at hne
    rw [hlen] at hlt
    rw [hrow2]
    omega

/-- Witness for the amended C9 on the concrete 3-player run and stream. -/
theorem solution_row_actions_witness :
    ((scramble_from_solved layout3 2 rngZero 3).2).all
      (fun a => !a.isRowType ||
        (decide (1 ≤ a.rowParam) && decide (a.rowParam ≤ 3))) = true := by
  have h := solution_row_actions rngBuild3 rngZero 2000 2 layout3 meta3 rfl
  rw [List.all_eq_true]
  intro a ha
  cases hrt : a.isRowType with
  | false => simp [hrt]
  | true =>
      obtain ⟨h1, h2⟩ := h a ha hrt
      simp [hrt, h1, h2]

/-- C9 counterexample: the concrete 3-player puzzle built from `rngBuild3`,
scrambled for 2 steps with the all-zeros stream, has solution
`[row_left 1, row_left 1]`; at position 1 the row index is 1, not
`1 + (1 % 3) = 2`, so solutions do not follow the 1,2,3,... row cycle. -/
theorem solution_cycle_refuted :
    buildResult3 = .ok (layout3, meta3) ∧
    ¬ cycleProperty (scramble_from_solved layout3 2 rngZero 3).2 := by
  constructor
  · rfl
  · decide

end CardGame
